import Mathlib

/-!
Verification development for a CTA (call-to-action) extraction and
optimization pipeline.  The program extracts CTA candidates from HTML,
plain text or OCR output, crawls websites for CTA-rich pages, and asks a
generative backend to rewrite each candidate, falling back to a
deterministic rule table when the backend fails.

The Lean definitions below are shallow embeddings of the Python source:
pure functions become Lean functions, the crawler loop becomes an explicit
step function on a state record, and the external collaborators (HTTP
fetch, OCR engine, generative backend, base64/image decoding) become
function parameters.  Python strings are modelled as Lean `String`
(operated on through their character lists), floats from the JSON layer as
`ℚ`, and Python exceptions as `Except`.
-/

namespace CtaBot

/-! ### Python-style string primitives -/

/-- The characters Python's `str.strip()` / `\s` treat as whitespace
(ASCII range, which covers all inputs considered here). -/
def isPySpace (c : Char) : Bool :=
  c = ' ' || c = '\t' || c = '\n' || c = '\r' || c = '\x0b' || c = '\x0c'

/-- `str.lower()` (ASCII case folding). -/
def lowerStr (s : String) : String := String.mk (s.data.map Char.toLower)

/-- `str.strip()` with no argument: drop whitespace from both ends. -/
def trimPy (s : String) : String :=
  String.mk (((s.data.dropWhile isPySpace).reverse.dropWhile isPySpace).reverse)

/-- Python's `needle in haystack` substring test. -/
def containsSub (haystack needle : String) : Bool :=
  haystack.data.tails.any (fun t => needle.data.isPrefixOf t)

/-- `re.search("^pat", s)` for a literal alternative list: prefix test. -/
def startsAny (s : String) (pats : List String) : Bool :=
  pats.any (fun p => p.data.isPrefixOf s.data)

/-- `re.search("(a|b)$", s)` for literal alternatives: suffix test. -/
def endsAny (s : String) (pats : List String) : Bool :=
  pats.any (fun p => p.data.isSuffixOf s.data)

/-- `str.split()` with no argument: split on whitespace runs, dropping
empty pieces. -/
def wordsAux : List Char → List Char → List String
  | [], cur => if cur.isEmpty then [] else [String.mk cur.reverse]
  | c :: rest, cur =>
    if isPySpace c then
      if cur.isEmpty then wordsAux rest []
      else String.mk cur.reverse :: wordsAux rest []
    else wordsAux rest (c :: cur)

def wordsOf (s : String) : List String := wordsAux s.data []

/-- A word character in the sense of the regex `\b` boundary (`\w`):
alphanumeric or underscore. -/
def isWordChar (c : Char) : Bool := c.isAlphanum || c = '_'

/-- One step of the word-boundary search: does the pattern occur here,
with a non-word character (or edge) on both sides? -/
def wbHere (p : List Char) (prev : Option Char) (s : List Char) : Bool :=
  (match prev with | none => true | some c => !isWordChar c) &&
  p.isPrefixOf s &&
  (match s.drop p.length with | [] => true | c :: _ => !isWordChar c)

/-- `re.search(r"\b" + lit + r"\b", s)` for a literal pattern that starts
and ends with word characters. -/
def containsWordAux (p : List Char) : Option Char → List Char → Bool
  | prev, [] => wbHere p prev []
  | prev, c :: rest =>
    if wbHere p prev (c :: rest) then true
    else containsWordAux p (some c) rest

def containsWordB (pat : String) (s : String) : Bool :=
  containsWordAux pat.data none s.data

/-- `str.rstrip("/")`: drop all trailing slashes. -/
def rstripSlash (s : String) : String :=
  String.mk (s.data.reverse.dropWhile (· = '/')).reverse

/-- `str.replace` / `parent_text.replace(element_text, "")`: replace all
non-overlapping occurrences left to right (empty pattern: unchanged).
The fuel argument (instantiated with the string length, which suffices
because a nonempty pattern consumes at least one character per step)
keeps the recursion structural. -/
def replaceAuxF (p r : List Char) : Nat → List Char → List Char
  | 0, s => s
  | _ + 1, [] => []
  | fuel + 1, c :: rest =>
    if p.isPrefixOf (c :: rest) then
      r ++ replaceAuxF p r fuel ((c :: rest).drop p.length)
    else c :: replaceAuxF p r fuel rest

def replaceStr (s pattern replacement : String) : String :=
  if pattern.data.isEmpty then s
  else String.mk (replaceAuxF pattern.data replacement.data s.data.length s.data)

/-- `s[:n]` (slice of the first `n` characters). -/
def takeStr (s : String) (n : Nat) : String := String.mk (s.data.take n)

/-- `sep.join(pieces)`. -/
def joinSep (sep : String) : List String → String
  | [] => ""
  | [x] => x
  | x :: y :: rest => x ++ sep ++ joinSep sep (y :: rest)

/-! ### CTA keyword sets and heuristics (`CTAExtractor` constants,
`src/backend/src/utils/cta_extractor.py`) -/

def primaryKeywords : List String :=
  ["buy", "purchase", "order", "get started", "start now", "sign up", "register",
   "subscribe", "download", "try", "start free", "book", "schedule", "contact",
   "call", "email", "request", "apply", "join", "enroll", "reserve", "claim"]

def secondaryKeywords : List String :=
  ["learn more", "read more", "see more", "view", "explore", "discover",
   "find out", "watch", "listen", "browse", "search", "compare"]

def urgencyKeywords : List String :=
  ["now", "today", "limited", "hurry", "fast", "quick", "instant",
   "immediate", "urgent", "don\x27t wait", "act now", "expires", "deadline"]

/-- Third imperative pattern `^[a-z]+ (free|now|today)`: a nonempty run of
lowercase letters from the start, a space, then one of the keywords. -/
def lcRunThenKeyword (s : String) : Bool :=
  let ls := s.data
  let run := ls.takeWhile (fun c => 'a' ≤ c && c ≤ 'z')
  !run.isEmpty &&
    (match ls.drop run.length with
     | ' ' :: r => ["free", "now", "today"].any (fun w => w.data.isPrefixOf r)
     | _ => false)

/-- `CTAExtractor._is_potential_cta`. -/
def isPotentialCta (text : String) : Bool :=
  if text.data.isEmpty || text.data.length < 2 || text.data.length > 100 then
    false
  else
    let tl := trimPy (lowerStr text)
    if (primaryKeywords ++ secondaryKeywords ++ urgencyKeywords).any
        (fun k => containsSub tl k) then
      true
    else
      startsAny tl ["get", "start", "try", "buy", "sign", "join", "call",
                    "email", "book", "download", "subscribe"] ||
      endsAny tl ["now", "today"] ||
      lcRunThenKeyword tl ||
      ["click here", "click now", "tap here", "tap now"].any
        (fun p => containsSub tl p)

/-- `CTAExtractor._is_standalone_cta`. -/
def isStandaloneCta (text : String) : Bool :=
  let tl := trimPy (lowerStr text)
  if !isPotentialCta text then false
  else if (wordsOf text).length > 8 then false
  else
    startsAny tl ["get", "start", "try", "buy", "sign", "join", "download",
                  "subscribe", "call", "email", "book"] ||
    ["free trial", "get started", "sign up", "learn more", "contact us"].any
      (fun p => containsSub tl p) ||
    endsAny tl ["now", "today", "free"]

/-! ### Data model (`src/backend/src/models/schemas.py`)

`cta_type` is modelled as a `String` holding the enum value (the pydantic
models use `use_enum_values = True`, and the OCR path assigns the raw
string `"image_button"`). -/

structure ExtractedCTA where
  id : String
  original_text : String
  cta_type : String
  context : Option String := none
  location : Option String := none
  url : Option String := none
  coordinates : Option (List (String × Int)) := none
  html_element : Option String := none
  css_selector : Option String := none
deriving Repr, DecidableEq

structure OptimizedCTA where
  original_cta_id : String
  optimized_text : String
  improvement_rationale : String
  confidence_score : ℚ
  optimization_type : String
  action_oriented : Bool
  value_proposition : Option String := none
  urgency_level : Int
deriving Repr, DecidableEq

/-! ### Optimization engine (`src/backend/src/services/analysis_service.py`)

The generative backend is abstracted as `respond`, covering the API call
and the JSON decoding of its reply: `Except.error` stands for any raised
exception on that path (rate limit, API error, malformed JSON), and
`Except.ok entries` for a decoded reply whose `"optimizations"` array
carries the listed entries.  JSON numbers are modelled as `ℚ`. -/

/-- One element of the `"optimizations"` array in the backend's JSON
reply; `none` models an absent key. -/
structure OptEntry where
  original_cta_id : Option String := none
  optimized_text : Option String := none
  improvement_rationale : Option String := none
  confidence_score : Option ℚ := none
  optimization_type : Option String := none
  action_oriented : Option Bool := none
  value_proposition : Option String := none
  urgency_level : Option Int := none
deriving Repr, DecidableEq

/-- The `cta_lookup` dict built by `_parse_optimization_response`; a dict
comprehension lets a later duplicate id overwrite an earlier one. -/
def lookupCta (ctas : List ExtractedCTA) (i : String) : Option ExtractedCTA :=
  ctas.reverse.find? (fun c => c.id = i)

/-- The `else` loop of the candidate matching: match the first candidate
whenever fewer optimizations than candidates have been accumulated so
far. -/
def positionalFallback (ctas : List ExtractedCTA) (accLen : Nat) :
    Option ExtractedCTA :=
  if accLen < ctas.length then ctas.head? else none

def matchEntryCore (ctas : List ExtractedCTA) (accLen : Nat) :
    Option String → Option ExtractedCTA
  | none => positionalFallback ctas accLen
  | some i =>
    match lookupCta ctas i with
    | some c => some c
    | none => positionalFallback ctas accLen

/-- Candidate matching in `_parse_optimization_response`: exact id lookup
first (`original_cta_id in cta_lookup`); otherwise the positional
fallback loop. -/
def matchEntry (ctas : List ExtractedCTA) (accLen : Nat) (e : OptEntry) :
    Option ExtractedCTA :=
  matchEntryCore ctas accLen e.original_cta_id

/-- Python's two-argument `min`/`max` (on JSON numbers, modelled as ℚ
and, for the integer field, ℤ). -/
def pyMinQ (a b : ℚ) : ℚ := if a ≤ b then a else b

def pyMaxQ (a b : ℚ) : ℚ := if a ≤ b then b else a

def pyMinI (a b : Int) : Int := if a ≤ b then a else b

def pyMaxI (a b : Int) : Int := if a ≤ b then b else a

/-- Construction of one `OptimizedCTA` from a matched entry, with the
clamping and defaulting done at ingestion. -/
def buildOptimized (e : OptEntry) (c : ExtractedCTA) : OptimizedCTA :=
  { original_cta_id := c.id
    optimized_text := e.optimized_text.getD ""
    improvement_rationale := e.improvement_rationale.getD ""
    confidence_score := pyMinQ 1 (pyMaxQ 0 (e.confidence_score.getD (7/10)))
    optimization_type := e.optimization_type.getD "general"
    action_oriented := e.action_oriented.getD true
    value_proposition := e.value_proposition
    urgency_level := pyMinI 10 (pyMaxI 0 (e.urgency_level.getD 5)) }

def parseOptimizationAux (ctas : List ExtractedCTA) :
    List OptEntry → List OptimizedCTA → List OptimizedCTA
  | [], acc => acc.reverse
  | e :: rest, acc =>
    match matchEntry ctas acc.length e with
    | some c => parseOptimizationAux ctas rest (buildOptimized e c :: acc)
    | none => parseOptimizationAux ctas rest acc

/-- `AnalysisService._parse_optimization_response`, applied to an already
decoded reply. -/
def parseOptimizationResponse (entries : List OptEntry)
    (ctas : List ExtractedCTA) : List OptimizedCTA :=
  parseOptimizationAux ctas entries []

/-- The ordered substitution table in
`AnalysisService._apply_basic_optimization_rules` (a Python dict iterated
in insertion order); keys are matched with `\b...\b` word boundaries. -/
def fallbackTable : List (String × String) :=
  [("learn more", "See How It Works"),
   ("click here", "Get Started Now"),
   ("submit", "Send My Request"),
   ("sign up", "Join Free Today"),
   ("register", "Create Account"),
   ("try", "Start Free Trial"),
   ("box now", "Order Now"),
   ("contact us", "Get Expert Help"),
   ("download", "Get Free Download"),
   ("read more", "Learn the Details")]

def actionWords : List String := ["get", "start", "try", "join", "see", "discover"]

/-- `AnalysisService._apply_basic_optimization_rules`. -/
def applyBasicOptimizationRules (original_text : String) : String :=
  let text := trimPy original_text
  let tl := lowerStr text
  match fallbackTable.find? (fun p => containsWordB p.1 tl) with
  | some p => p.2
  | none =>
    if !(actionWords.any (fun w => containsSub tl w)) &&
        (wordsOf text).length ≤ 2 then
      "Get " ++ text
    else text

/-- `AnalysisService._create_fallback_optimizations`. -/
def createFallbackOptimizations (ctas : List ExtractedCTA) : List OptimizedCTA :=
  ctas.map (fun c =>
    { original_cta_id := c.id
      optimized_text := applyBasicOptimizationRules c.original_text
      improvement_rationale :=
        "Basic optimization applied due to AI service unavailability"
      confidence_score := 1/2
      optimization_type := "fallback"
      action_oriented := true
      value_proposition := none
      urgency_level := 5 })

/-- The batch split `ctas[i:i+10]` of `optimize_ctas`.  Fuel keeps the
recursion structural; `l.length` suffices since every batch consumes at
least one element. -/
def toBatchesAux : Nat → List ExtractedCTA → List (List ExtractedCTA)
  | 0, _ => []
  | _ + 1, [] => []
  | fuel + 1, x :: xs => (x :: xs).take 10 :: toBatchesAux fuel ((x :: xs).drop 10)

def toBatches (l : List ExtractedCTA) : List (List ExtractedCTA) :=
  toBatchesAux l.length l

/-- `AnalysisService.optimize_ctas`: empty input short-circuits; each
batch is optimized through the backend, and any exception on a batch is
replaced by that batch's fallback optimizations. -/
def optimizeCtas (respond : List ExtractedCTA → Except Unit (List OptEntry))
    (ctas : List ExtractedCTA) : List OptimizedCTA :=
  if ctas.isEmpty then []
  else
    (toBatches ctas).foldl
      (fun acc batch =>
        acc ++
          match respond batch with
          | .ok entries => parseOptimizationResponse entries batch
          | .error _ => createFallbackOptimizations batch)
      []

/-! ### Text extraction (`CTAExtractor.extract_from_text`)

`uuid.uuid4()` is an external source of fresh identifiers; it is modelled
by an injected generator `idGen` applied to the running count of
candidates created so far. -/

/-- `re.split(r"[.!?]\s+", text)`: a sentence boundary is one of `.!?`
followed by at least one whitespace character; the separator (greedy
whitespace run included) is consumed.  The Boolean flag records that the
scanner is inside the whitespace run of a just-matched separator. -/
def splitSentAux : Bool → List Char → List Char → List String
  | _, [], cur => [String.mk cur.reverse]
  | skipping, c :: rest, cur =>
    if skipping && isPySpace c then splitSentAux true rest cur
    else if (c = '.' || c = '!' || c = '?') &&
        (match rest with | d :: _ => isPySpace d | [] => false) then
      String.mk cur.reverse :: splitSentAux true rest []
    else
      splitSentAux false rest (c :: cur)

def splitSentences (text : String) : List String := splitSentAux false text.data []

/-- Modelled from the spec: `CTAExtractor._get_surrounding_context` is
called at `cta_extractor.py:87` but its definition is absent from `src/`.
Per §3 of the spec, context is best-effort surrounding text with a
sentinel when unavailable; modelled as the neighbouring text segments,
falling back to the sentinel string used elsewhere in the extractor. -/
def surroundingContext (sentences : List String) (i : Nat) : String :=
  let pieces :=
    (if i = 0 then [] else [sentences.getD (i - 1) ""]) ++ [sentences.getD (i + 1) ""]
  let joined := trimPy (String.intercalate " " pieces)
  if joined.isEmpty then "No context available" else joined

def extractFromTextAux (idGen : Nat → String) (all : List String)
    (ctx : Option String) : List String → Nat → Nat → List ExtractedCTA
  | [], _, _ => []
  | s :: rest, i, k =>
    let s' := trimPy s
    if isPotentialCta s' then
      { id := idGen k
        original_text := s'
        cta_type := "text_cta"
        context := some
          (match ctx with
           | some c => if c.isEmpty then surroundingContext all i else c
           | none => surroundingContext all i)
        location := some ("Text segment " ++ toString (i + 1)) }
        :: extractFromTextAux idGen all ctx rest (i + 1) (k + 1)
    else extractFromTextAux idGen all ctx rest (i + 1) k

/-- `CTAExtractor.extract_from_text`. -/
def extractFromText (idGen : Nat → String) (text : String)
    (context : Option String) : List ExtractedCTA :=
  extractFromTextAux idGen (splitSentences text) context (splitSentences text) 0 0

/-! ### OCR path (`src/backend/src/services/ocr_service.py`)

Base64 decoding plus `PIL.Image.open` is abstracted as `decode` (`none`
models any exception on that path) and the Tesseract engine as `ocr`
(`none` models an OCR failure).  Only the image properties the service
inspects are modelled. -/

structure ImageInfo where
  width : Nat
  height : Nat
  byteSize : Nat
deriving Repr, DecidableEq

/-- `OCRService.validate_image`: threshold checks on the decoded image;
any decoding exception yields `False`. -/
def validateImage (info : ImageInfo) : Bool :=
  if info.width < 50 || info.height < 50 then false
  else if info.width > 5000 || info.height > 5000 then false
  else if info.byteSize > 10 * 1024 * 1024 then false
  else true

def validateImageData (decode : String → Option ImageInfo)
    (image_data : String) : Bool :=
  match decode image_data with
  | none => false
  | some info => validateImage info

/-- `OCRService._enhance_image_ctas`: force `cta_type` to
`"image_button"`, default `coordinates` to the image dimensions and
`location` to `"Image Content"`. -/
def enhanceImageCtas (ctas : List ExtractedCTA) (w h : Nat) : List ExtractedCTA :=
  ctas.map (fun c =>
    { c with
      cta_type := "image_button"
      coordinates :=
        match c.coordinates with
        | some cs => some cs
        | none => some [("image_width", (w : Int)), ("image_height", (h : Int))]
      location :=
        match c.location with
        | some l => some l
        | none => some "Image Content" })

instance {ε α : Type} [DecidableEq ε] [DecidableEq α] : DecidableEq (Except ε α) :=
  fun x y =>
    match x, y with
    | .ok a, .ok b =>
      if h : a = b then isTrue (by rw [h])
      else isFalse (by intro he; cases he; exact h rfl)
    | .error a, .error b =>
      if h : a = b then isTrue (by rw [h])
      else isFalse (by intro he; cases he; exact h rfl)
    | .ok _, .error _ => isFalse (by intro h; cases h)
    | .error _, .ok _ => isFalse (by intro h; cases h)

/-- Outcome of `process_image_data`, recording whether the OCR engine was
invoked before the call returned or raised. -/
structure ImageProcOutcome where
  result : Except String (List ExtractedCTA)
  ocrAttempted : Bool
deriving Repr, DecidableEq

/-- The OCR-and-extract tail of `process_image_data`, after decoding
succeeded. -/
def processDecodedImage (ocr : ImageInfo → Option String) (idGen : Nat → String)
    (context : Option String) (info : ImageInfo) : ImageProcOutcome :=
  match ocr info with
  | none => { result := Except.error "Image processing failed", ocrAttempted := true }
  | some rawText =>
    let ctas := extractFromText idGen (trimPy rawText) context
    { result := Except.ok (enhanceImageCtas ctas info.width info.height)
      ocrAttempted := true }

/-- `OCRService.process_image_data`: decode, run OCR, extract CTAs from
the recognised text, enhance.  Note that `validate_image` is not invoked
anywhere on this path. -/
def processImageData (decode : String → Option ImageInfo)
    (ocr : ImageInfo → Option String) (idGen : Nat → String)
    (image_data : String) (context : Option String) : ImageProcOutcome :=
  match decode image_data with
  | none => { result := Except.error "Image processing failed", ocrAttempted := false }
  | some info => processDecodedImage ocr idGen context info

/-! ### HTML document model

Modelled from the spec (§6): the page markup parser is an external
library dependency (BeautifulSoup over lxml) producing "a navigable
document tree supporting CSS-selector-like queries, text extraction,
attribute access, and ancestor/sibling traversal", and §4.1 requires the
parse to be lenient — it never throws on malformed markup and skips
unparsable fragments.  The tokenizer below is total on arbitrary strings:
stray `<`, unterminated tags and mismatched close tags are recovered
rather than fatal.  Tag and attribute names are lower-cased as lxml
does. -/

mutual
inductive HtmlNode where
  | elem (tag : String) (attrs : List (String × String)) (children : HtmlForest)
  | text (s : String)

inductive HtmlForest where
  | nil
  | cons (head : HtmlNode) (tail : HtmlForest)
end

def listToForest : List HtmlNode → HtmlForest
  | [] => .nil
  | n :: rest => .cons n (listToForest rest)

def forestToList : HtmlForest → List HtmlNode
  | .nil => []
  | .cons n rest => n :: forestToList rest

inductive HtmlTok where
  | tagOpen (tag : String) (attrs : List (String × String)) (selfClose : Bool)
  | tagClose (tag : String)
  | txt (s : String)
deriving Repr

def singleQuote : Char := Char.ofNat 39

/-- Attribute scanner: consumes up to and including the closing `>` (or
the end of input), returning the attributes, the rest of the input and
whether the tag was self-closing. -/
def lexAttrs : Nat → List Char → List (String × String) →
    List (String × String) × List Char × Bool
  | 0, s, acc => (acc.reverse, s, false)
  | fuel + 1, s, acc =>
    let s := s.dropWhile isPySpace
    match s with
    | [] => (acc.reverse, [], false)
    | '>' :: rest => (acc.reverse, rest, false)
    | '/' :: rest =>
      (match rest.dropWhile isPySpace with
       | '>' :: r2 => (acc.reverse, r2, true)
       | r2 => lexAttrs fuel r2 acc)
    | c :: rest =>
      let nm := (c :: rest).takeWhile
        (fun ch => !isPySpace ch && ch ≠ '=' && ch ≠ '>' && ch ≠ '/')
      let after := ((c :: rest).drop nm.length).dropWhile isPySpace
      let name := lowerStr (String.mk nm)
      match after with
      | '=' :: r =>
        let r := r.dropWhile isPySpace
        (match r with
         | '"' :: r2 =>
           let v := r2.takeWhile (· ≠ '"')
           lexAttrs fuel (r2.drop (v.length + 1)) ((name, String.mk v) :: acc)
         | q :: r2 =>
           if q = singleQuote then
             let v := r2.takeWhile (· ≠ singleQuote)
             lexAttrs fuel (r2.drop (v.length + 1)) ((name, String.mk v) :: acc)
           else
             let v := (q :: r2).takeWhile (fun ch => !isPySpace ch && ch ≠ '>')
             lexAttrs fuel ((q :: r2).drop v.length) ((name, String.mk v) :: acc)
         | [] => ((acc.reverse ++ [(name, "")]), [], false))
      | rest2 => lexAttrs fuel rest2 ((name, "") :: acc)

/-- Skip past the terminator of an HTML comment. -/
def dropToCommentEnd : List Char → List Char
  | [] => []
  | '-' :: '-' :: '>' :: r => r
  | _ :: r => dropToCommentEnd r

/-- Lenient HTML tokenizer.  The fuel argument makes totality manifest;
every emitted token consumes at least one character, so fuel equal to the
input length suffices. -/
def lexHtml : Nat → List Char → List HtmlTok
  | 0, _ => []
  | _ + 1, [] => []
  | fuel + 1, s =>
    match s with
    | '<' :: '!' :: rest =>
      (match rest with
       | '-' :: '-' :: r => lexHtml fuel (dropToCommentEnd r)
       | _ =>
         match rest.dropWhile (· ≠ '>') with
         | '>' :: r => lexHtml fuel r
         | _ => [])
    | '<' :: '/' :: rest =>
      let nm := rest.takeWhile (fun c => c.isAlphanum)
      if nm.isEmpty then
        HtmlTok.txt "</" :: lexHtml fuel rest
      else
        (match (rest.drop nm.length).dropWhile (· ≠ '>') with
         | '>' :: r => HtmlTok.tagClose (lowerStr (String.mk nm)) :: lexHtml fuel r
         | _ => [HtmlTok.tagClose (lowerStr (String.mk nm))])
    | '<' :: c :: rest =>
      if c.isAlpha then
        let nm := (c :: rest).takeWhile (fun ch => ch.isAlphanum)
        let (attrs, rest2, selfC) :=
          lexAttrs (rest.length + 1) ((c :: rest).drop nm.length) []
        HtmlTok.tagOpen (lowerStr (String.mk nm)) attrs selfC :: lexHtml fuel rest2
      else
        HtmlTok.txt "<" :: lexHtml fuel (c :: rest)
    | '<' :: [] => [HtmlTok.txt "<"]
    | _ =>
      let t := s.takeWhile (· ≠ '<')
      HtmlTok.txt (String.mk t) :: lexHtml fuel (s.drop t.length)

/-- Elements that never take children (HTML void elements). -/
def voidTags : List String :=
  ["area", "base", "br", "col", "embed", "hr", "img", "input",
   "link", "meta", "source", "track", "wbr"]

structure OpenFrame where
  tag : String
  attrs : List (String × String)
  childrenRev : List HtmlNode

def closeFrame (f : OpenFrame) : HtmlNode :=
  .elem f.tag f.attrs (listToForest f.childrenRev.reverse)

/-- Attach a finished node to the innermost open element, or to the
top-level forest when no element is open. -/
def pushNode (stack : List OpenFrame) (acc : List HtmlNode) (n : HtmlNode) :
    List OpenFrame × List HtmlNode :=
  match stack with
  | [] => ([], n :: acc)
  | f :: fs => ({ f with childrenRev := n :: f.childrenRev } :: fs, acc)

/-- Close open frames up to and including the first whose tag matches
(recovery for mis-nested markup). -/
def popUntil (tag : String) : Nat → List OpenFrame → List HtmlNode →
    List OpenFrame × List HtmlNode
  | 0, stack, acc => (stack, acc)
  | _ + 1, [], acc => ([], acc)
  | fuel + 1, f :: fs, acc =>
    let (st, ac) := pushNode fs acc (closeFrame f)
    if f.tag = tag then (st, ac) else popUntil tag fuel st ac

/-- Close every remaining open frame at end of input. -/
def closeAll : Nat → List OpenFrame → List HtmlNode → List HtmlNode
  | 0, _, acc => acc.reverse
  | _ + 1, [], acc => acc.reverse
  | fuel + 1, f :: fs, acc =>
    let (st, ac) := pushNode fs acc (closeFrame f)
    closeAll fuel st ac

def buildTokens : List HtmlTok → List OpenFrame → List HtmlNode → List HtmlNode
  | [], stack, acc => closeAll (stack.length + 1) stack acc
  | t :: ts, stack, acc =>
    match t with
    | .txt s =>
      let (st, ac) := pushNode stack acc (.text s)
      buildTokens ts st ac
    | .tagOpen name attrs selfC =>
      if selfC || voidTags.contains name then
        let (st, ac) := pushNode stack acc (.elem name attrs .nil)
        buildTokens ts st ac
      else
        buildTokens ts ({ tag := name, attrs := attrs, childrenRev := [] } :: stack) acc
    | .tagClose name =>
      if stack.any (fun f => f.tag = name) then
        let (st, ac) := popUntil name (stack.length + 1) stack acc
        buildTokens ts st ac
      else
        buildTokens ts stack acc

/-- The lenient parse of an HTML string into a document forest. -/
def parseHtml (html : String) : HtmlForest :=
  listToForest (buildTokens (lexHtml (html.data.length + 1) html.data) [] [])

/-! ### DOM helpers mirroring the BeautifulSoup operations used -/

def tagOf : HtmlNode → String
  | .elem t _ _ => t
  | .text _ => ""

def attrsOf : HtmlNode → List (String × String)
  | .elem _ a _ => a
  | .text _ => []

def childrenOf : HtmlNode → HtmlForest
  | .elem _ _ cs => cs
  | .text _ => .nil

def getAttr (attrs : List (String × String)) (name : String) : Option String :=
  (attrs.find? (fun a => a.1 = name)).map (·.2)

mutual
/-- The descendant strings of a node, in document order (`.strings`). -/
def nodeStrings : HtmlNode → List String
  | .text s => [s]
  | .elem _ _ cs => forestStrings cs

def forestStrings : HtmlForest → List String
  | .nil => []
  | .cons n rest => nodeStrings n ++ forestStrings rest
end

/-- `get_text(strip=True)`: each string stripped, empties dropped,
concatenated. -/
def getTextStrip (n : HtmlNode) : String :=
  String.join (((nodeStrings n).map trimPy).filter (fun s => !s.isEmpty))

/-- `get_text()` with default arguments: raw concatenation. -/
def getTextRaw (n : HtmlNode) : String := String.join (nodeStrings n)

mutual
/-- `str(tag)`: serialize a node back to markup. -/
def renderNode : HtmlNode → String
  | .text s => s
  | .elem t attrs cs =>
    "<" ++ t ++
      String.join (attrs.map (fun a => " " ++ a.1 ++ "=\"" ++ a.2 ++ "\"")) ++
      ">" ++ renderForest cs ++ "</" ++ t ++ ">"

def renderForest : HtmlForest → String
  | .nil => ""
  | .cons n rest => renderNode n ++ renderForest rest
end

/-- The multi-valued `class` attribute, split on whitespace as
BeautifulSoup does. -/
def classListOf (n : HtmlNode) : List String :=
  wordsOf ((getAttr (attrsOf n) "class").getD "")

/-- An element together with its ancestor chain (nearest first) and its
sibling lists (nearest first), as produced by BeautifulSoup's
`.parents`, `.previous_siblings` and `.next_siblings` traversals. -/
structure Located where
  node : HtmlNode
  parents : List HtmlNode
  prevSibs : List HtmlNode
  nextSibs : List HtmlNode

mutual
/-- The traversal records contributed by one node: the node itself (when
it is an element) followed by its descendants. -/
def locateNode (parents prevRev nextSibs : List HtmlNode) : HtmlNode → List Located
  | .text _ => []
  | .elem t a cs =>
    { node := .elem t a cs, parents := parents, prevSibs := prevRev,
      nextSibs := nextSibs } ::
      locateForest (HtmlNode.elem t a cs :: parents) [] cs

/-- All elements of a forest in document order, each with its traversal
context (the order `find_all` yields). -/
def locateForest (parents prevRev : List HtmlNode) : HtmlForest → List Located
  | .nil => []
  | .cons n rest =>
    locateNode parents prevRev (forestToList rest) n ++
      locateForest parents (n :: prevRev) rest
end

def locatedAll (forest : HtmlForest) : List Located :=
  locateForest [] [] forest

/-! ### HTML-based CTA extraction (`CTAExtractor`, HTML passes) -/

/-- `CTAExtractor._get_element_text`: inputs use their `value` (or, when
falsy, `placeholder`) attribute; other elements their stripped text. -/
def elementText (n : HtmlNode) : String :=
  if tagOf n = "input" then
    let v := (getAttr (attrsOf n) "value").getD ""
    if v.isEmpty then (getAttr (attrsOf n) "placeholder").getD "" else v
  else getTextStrip n

def blockTags : List String := ["section", "article", "div", "main"]

/-- `CTAExtractor._get_element_context`: the first block-level ancestor
whose text (minus the element's own text) exceeds 50 characters,
truncated to 200; otherwise concatenated sibling text; otherwise a
sentinel. -/
def elementContextOf (el : HtmlNode) (parents prevSibs nextSibs : List HtmlNode) :
    String :=
  let etext := elementText el
  match parents.find? (fun p =>
      blockTags.contains (tagOf p) &&
      (trimPy (replaceStr (getTextStrip p) etext "")).data.length > 50) with
  | some p => takeStr (trimPy (replaceStr (getTextStrip p) etext "")) 200
  | none =>
    let sibs := (prevSibs ++ nextSibs).map getTextStrip
    let ctx := joinSep " " (sibs.filter (fun s => !s.isEmpty))
    if ctx.isEmpty then "No context available" else takeStr ctx 200

/-- Modelled from the spec: `CTAExtractor._get_element_location` is
called throughout the HTML passes but its definition is absent from
`src/`.  §3 describes `location` as human-readable provenance (page
section / semantic zone); modelled as the nearest named sectioning
ancestor, with a generic default. -/
def elementLocation (parents : List HtmlNode) : String :=
  match parents.find? (fun p =>
      ["header", "footer", "nav", "main", "aside", "section"].contains (tagOf p)) with
  | some p => tagOf p
  | none => "Page content"

/-- Modelled from the spec: `CTAExtractor._generate_css_selector` is
absent from `src/`; §3 only requires a CSS selector for the element.
Modelled as the tag name followed by its classes. -/
def cssSelector (n : HtmlNode) : String :=
  tagOf n ++ String.join ((classListOf n).map (fun c => "." ++ c))

/-- Modelled from the spec: `CTAExtractor._get_form_context` is absent
from `src/`; §4.1 attaches the enclosing form's context to form-submit
candidates.  Modelled as the form's stripped text, truncated. -/
def formContext (form : HtmlNode) : String :=
  let t := getTextStrip form
  if t.isEmpty then "No context available" else takeStr t 200

/-- The `find_all(["button", "input"], type=["button", "submit"])`
filter: note the attribute filter applies to `button` elements too, so a
`button` without a `type` attribute does not match. -/
def isButtonLike (n : HtmlNode) : Bool :=
  (tagOf n = "button" || tagOf n = "input") &&
  (getAttr (attrsOf n) "type" = some "button" ||
   getAttr (attrsOf n) "type" = some "submit")

/-- `CTAExtractor._extract_button_ctas` (candidate ids assigned later). -/
def extractButtonCtas (forest : HtmlForest) (source_url : Option String) :
    List ExtractedCTA :=
  (locatedAll forest).filterMap (fun l =>
    if isButtonLike l.node then
      let text := elementText l.node
      if text.isEmpty || !isPotentialCta text then none
      else some
        { id := ""
          original_text := text
          cta_type := if tagOf l.node = "button" then "button" else "form_submit"
          context := some (elementContextOf l.node l.parents l.prevSibs l.nextSibs)
          location := some (elementLocation l.parents)
          url := source_url
          html_element := some (takeStr (renderNode l.node) 500)
          css_selector := some (cssSelector l.node) }
    else none)

def navIndicators : List String :=
  ["home", "about", "contact", "blog", "news", "faq", "help",
   "privacy", "terms", "policy", "sitemap", "menu", "nav"]

/-- `CTAExtractor._is_navigation_link`. -/
def isNavigationLink (n : HtmlNode) : Bool :=
  let text := lowerStr (elementText n)
  let href := lowerStr ((getAttr (attrsOf n) "href").getD "")
  let classes := lowerStr (joinSep " " (classListOf n))
  navIndicators.any (fun i => containsSub text i) ||
  navIndicators.any (fun i => containsSub href i) ||
  navIndicators.any (fun i => containsSub classes i)

def ctaStyleIndicators : List String :=
  ["btn", "button", "cta", "call-to-action", "primary", "secondary",
   "action", "submit", "download", "signup", "register", "purchase"]

/-- `CTAExtractor._has_cta_styling`. -/
def hasCtaStyling (n : HtmlNode) : Bool :=
  let cs := lowerStr (joinSep " " (classListOf n))
  ctaStyleIndicators.any (fun i => containsSub cs i)

/-- `CTAExtractor._extract_link_ctas`. -/
def extractLinkCtas (forest : HtmlForest) (source_url : Option String) :
    List ExtractedCTA :=
  (locatedAll forest).filterMap (fun l =>
    if tagOf l.node = "a" && (getAttr (attrsOf l.node) "href").isSome then
      if isNavigationLink l.node then none
      else
        let text := elementText l.node
        if text.isEmpty || !isPotentialCta text then none
        else if !hasCtaStyling l.node then none
        else some
          { id := ""
            original_text := text
            cta_type := "link"
            context := some (elementContextOf l.node l.parents l.prevSibs l.nextSibs)
            location := some (elementLocation l.parents)
            url := source_url
            html_element := some (takeStr (renderNode l.node) 500)
            css_selector := some (cssSelector l.node) }
    else none)

/-- The `form.find_all(["input", "button"], type=["submit", "button"])`
filter inside `_extract_form_ctas`. -/
def isSubmitLike (n : HtmlNode) : Bool :=
  (tagOf n = "input" || tagOf n = "button") &&
  (getAttr (attrsOf n) "type" = some "submit" ||
   getAttr (attrsOf n) "type" = some "button")

/-- `CTAExtractor._extract_form_ctas`. -/
def extractFormCtas (forest : HtmlForest) (source_url : Option String) :
    List ExtractedCTA :=
  (locatedAll forest).flatMap (fun l =>
    if tagOf l.node = "form" then
      (locatedAll (childrenOf l.node)).filterMap (fun s =>
        if isSubmitLike s.node then
          let text := elementText s.node
          if text.isEmpty then none
          else some
            { id := ""
              original_text := text
              cta_type := "form_submit"
              context := some (formContext l.node)
              location := some (elementLocation l.parents)
              url := source_url
              html_element := some (takeStr (renderNode s.node) 500)
              css_selector := some (cssSelector s.node) }
        else none)
    else [])

def textTags : List String := ["p", "div", "span", "h1", "h2", "h3", "h4", "h5", "h6"]

/-- `CTAExtractor._extract_text_ctas`. -/
def extractTextCtas (forest : HtmlForest) (source_url : Option String) :
    List ExtractedCTA :=
  (locatedAll forest).filterMap (fun l =>
    if textTags.contains (tagOf l.node) then
      let text := getTextStrip l.node
      if text.isEmpty || text.data.length > 100 then none
      else if isStandaloneCta text then
        some
          { id := ""
            original_text := text
            cta_type := "text_cta"
            context := some (elementContextOf l.node l.parents l.prevSibs l.nextSibs)
            location := some (elementLocation l.parents)
            url := source_url
            html_element := some (takeStr (renderNode l.node) 500) }
      else none
    else none)

/-- Modelled from the spec: `CTAExtractor._deduplicate_ctas` is called at
`cta_extractor.py:68` but its body is absent from `src/`.  §3 states the
invariant: within one extraction call, candidates are de-duplicated
case-insensitively by `original_text`; first occurrence wins and is kept
in first-seen order. -/
def dedupAux (seen : List String) : List ExtractedCTA → List ExtractedCTA
  | [] => []
  | c :: rest =>
    let key := lowerStr c.original_text
    if seen.contains key then dedupAux seen rest
    else c :: dedupAux (key :: seen) rest

def deduplicateCtas (ctas : List ExtractedCTA) : List ExtractedCTA :=
  dedupAux [] ctas

/-- `CTAExtractor.extract_from_html`: the four passes in order, ids
assigned in creation order (modelling `uuid.uuid4()` by the injected
generator), then deduplication. -/
def extractFromHtml (idGen : Nat → String) (html : String)
    (source_url : Option String) : List ExtractedCTA :=
  let forest := parseHtml html
  let ctas :=
    extractButtonCtas forest source_url ++ extractLinkCtas forest source_url ++
    extractFormCtas forest source_url ++ extractTextCtas forest source_url
  deduplicateCtas (ctas.enum.map (fun p => { p.2 with id := idGen p.1 }))

/-! ### URL handling (`urllib.parse` as used by the services)

`urlparse`/`urljoin` are standard-library collaborators; they are
modelled for the URL shapes arising here (http/https URLs and page
links).  The scheme is lower-cased as CPython does; the network location
is kept as-is. -/

structure UrlParts where
  scheme : String
  netloc : String
  path : String
  query : String
  fragment : String
deriving Repr, DecidableEq

def isSchemeChar (c : Char) : Bool :=
  c.isAlphanum || c = '+' || c = '-' || c = '.'

def parseUrl (url : String) : UrlParts :=
  let ls := url.data
  let run := ls.takeWhile isSchemeChar
  let (scheme, rest) :=
    match run with
    | [] => ("", ls)
    | c :: _ =>
      if c.isAlpha && (ls.drop run.length).headD ' ' = ':' then
        (lowerStr (String.mk run), ls.drop (run.length + 1))
      else ("", ls)
  let (netloc, rest2) :=
    match rest with
    | '/' :: '/' :: r =>
      let nl := r.takeWhile (fun c => c ≠ '/' && c ≠ '?' && c ≠ '#')
      (String.mk nl, r.drop nl.length)
    | _ => ("", rest)
  let beforeFrag := rest2.takeWhile (· ≠ '#')
  let fragment :=
    match rest2.dropWhile (· ≠ '#') with
    | [] => ""
    | _ :: t => String.mk t
  let path := beforeFrag.takeWhile (· ≠ '?')
  let query :=
    match beforeFrag.dropWhile (· ≠ '?') with
    | [] => ""
    | _ :: t => String.mk t
  { scheme := scheme, netloc := netloc, path := String.mk path,
    query := query, fragment := fragment }

/-- `CrawlerService.normalize_url`: scheme + host + path (+ query),
fragment stripped, trailing slashes stripped. -/
def normalizeUrl (url : String) : String :=
  let p := parseUrl url
  let base := p.scheme ++ "://" ++ p.netloc ++ p.path
  rstripSlash (if p.query.isEmpty then base else base ++ "?" ++ p.query)

/-- Model of `urllib.parse.urljoin` for the reference shapes arising from
page links: absolute references pass through, scheme-relative and
root-relative references resolve against the base, and other references
resolve against the directory of the base path.  Dot-segment
normalisation is not modelled. -/
def urljoinModel (base href : String) : String :=
  if href.isEmpty then base
  else
    let bp := parseUrl base
    let hp := parseUrl href
    if !hp.scheme.isEmpty then href
    else if ['/', '/'].isPrefixOf href.data then bp.scheme ++ ":" ++ href
    else if ['/'].isPrefixOf href.data then
      bp.scheme ++ "://" ++ bp.netloc ++ href
    else
      let dir := String.mk (bp.path.data.reverse.dropWhile (· ≠ '/')).reverse
      let dir := if dir.isEmpty then "/" else dir
      bp.scheme ++ "://" ++ bp.netloc ++ dir ++ href

def skipExtensions : List String :=
  [".pdf", ".jpg", ".jpeg", ".png", ".gif", ".zip", ".doc", ".docx"]

def skipPatterns : List String :=
  ["admin", "wp-admin", "login", "logout", "register",
   "api/", "ajax/", "json", "xml", "rss", "feed",
   "terms", "privacy", "legal", "sitemap"]

/-- `CrawlerService.should_crawl_url`. -/
def shouldCrawlUrl (url : String) (base_domain : String) : Bool :=
  let p := parseUrl url
  if !(p.scheme = "http" || p.scheme = "https") then false
  else if p.netloc ≠ base_domain then false
  else if skipExtensions.any (fun e => e.data.isSuffixOf (lowerStr url).data) then false
  else if skipPatterns.any (fun pat => containsSub (lowerStr url) pat) then false
  else true

/-! ### Scraper helpers (`src/backend/src/services/scraper_service.py`) -/

/-- Class-attribute match for
`find_all("a", class_=re.compile(r"btn|button|cta|primary|call-to-action"))`:
the regex is searched against each individual class token. -/
def ctaClassRegexLits : List String :=
  ["btn", "button", "cta", "primary", "call-to-action"]

def hasCtaClass (n : HtmlNode) : Bool :=
  (classListOf n).any (fun t => ctaClassRegexLits.any (fun p => containsSub t p))

def richKeywords : List String :=
  ["sign up", "get started", "buy now", "subscribe", "download", "contact us"]

/-- `ScraperService.is_cta_rich_page`.  The Python score is
`indicators + 0.5 * keyword_count >= 3`; both sides are doubled here so
the arithmetic stays in `Nat` (the comparison is exact either way). -/
def isCtaRichPage (html : String) : Bool :=
  let forest := parseHtml html
  let nodes := locatedAll forest
  let buttons := nodes.countP (fun l => isButtonLike l.node)
  let ctaLinks := nodes.countP (fun l => tagOf l.node = "a" && hasCtaClass l.node)
  let forms := nodes.countP (fun l => tagOf l.node = "form")
  let text := lowerStr (String.join (forestStrings forest))
  let keywordCount := (richKeywords.filter (fun k => containsSub text k)).length
  2 * (buttons + ctaLinks + forms) + keywordCount ≥ 6

/-- `ScraperService.extract_page_links`. -/
def extractPageLinks (html : String) (base_url : String) : List String :=
  let base_domain := (parseUrl base_url).netloc
  let hrefs := (locatedAll (parseHtml html)).filterMap (fun l =>
    if tagOf l.node = "a" then getAttr (attrsOf l.node) "href" else none)
  hrefs.foldl (fun links href =>
    if startsAny href ["#", "mailto:", "tel:", "javascript:"] then links
    else
      let absolute := urljoinModel base_url href
      if (parseUrl absolute).netloc = base_domain then
        let clean := String.mk (absolute.data.takeWhile (· ≠ '#'))
        if links.contains clean || clean = base_url then links
        else links ++ [clean]
      else links) []

/-! ### Crawler (`src/backend/src/services/crawler_service.py`) -/

def highPriorityKeywords : List String :=
  ["pricing", "plans", "signup", "register", "subscribe",
   "buy", "purchase", "checkout", "contact", "demo",
   "trial", "free", "get-started", "start"]

def mediumPriorityKeywords : List String :=
  ["product", "service", "solution", "feature",
   "about", "how-it-works", "benefits"]

def stripSlashes (s : String) : String :=
  String.mk (((s.data.dropWhile (· = '/')).reverse.dropWhile (· = '/')).reverse)

/-- `list.sort(key=lambda x: x[0], reverse=True)`: stable descending sort
by priority, as insertion after equal keys while folding left. -/
def insertDesc (x : Int × String × Nat) :
    List (Int × String × Nat) → List (Int × String × Nat)
  | [] => [x]
  | y :: rest => if x.1 ≤ y.1 then y :: insertDesc x rest else x :: y :: rest

def sortByPriorityDesc (l : List (Int × String × Nat)) :
    List (Int × String × Nat) :=
  l.foldl (fun acc x => insertDesc x acc) []

/-- `CrawlerService.prioritize_url`.  The path-depth step reads the name
`parsed_url`, which is never bound in the function body; Python evaluates
the conditional's condition `urlparse(url).path.strip("/")` first, so the
function returns normally only when the stripped path is empty (depth 0,
`+3`) and otherwise raises `NameError`. -/
def prioritizeUrl (url : String) (html_content : String) : Except String Int :=
  let url_lower := lowerStr url
  let p1 : Int := if highPriorityKeywords.any (fun k => containsSub url_lower k) then 10 else 0
  let p2 : Int := if mediumPriorityKeywords.any (fun k => containsSub url_lower k) then 5 else 0
  let p3 : Int := if isCtaRichPage html_content then 8 else 0
  if (stripSlashes (parseUrl url).path).isEmpty then
    Except.ok (p1 + p2 + p3 + 3)
  else
    Except.error "NameError: name \x27parsed_url\x27 is not defined"

/-- The crawler's per-page record; wall-clock timing fields are not
modelled. -/
structure PageAnalysis where
  url : String
  title : Option String := none
  description : Option String := none
  ctas_found : Nat := 0
  extracted_ctas : List ExtractedCTA := []
  error : Option String := none
deriving Repr, DecidableEq

def titleOf (forest : HtmlForest) : Option String :=
  ((locatedAll forest).find? (fun l => tagOf l.node = "title")).bind
    (fun l => match childrenOf l.node with
              | HtmlForest.cons (HtmlNode.text s) HtmlForest.nil => some s
              | _ => none)

def metaDescription (forest : HtmlForest) : Option String :=
  ((locatedAll forest).find? (fun l =>
      tagOf l.node = "meta" &&
      getAttr (attrsOf l.node) "name" = some "description")).bind
    (fun l => getAttr (attrsOf l.node) "content")

/-- `CrawlerService._analyze_page_async` with the HTTP fetch abstracted
as `fetch`; all exceptions inside are caught and turned into an error
record, so the function is total. -/
def analyzePage (fetch : String → Except String String) (idGen : Nat → String)
    (url : String) : PageAnalysis :=
  match fetch url with
  | .error e => { url := url, error := some e }
  | .ok html =>
    let forest := parseHtml html
    let ctas := extractFromHtml idGen html (some url)
    { url := url
      title := titleOf forest
      description := metaDescription forest
      ctas_found := ctas.length
      extracted_ctas := ctas }

structure CrawlState where
  queue : List (String × Nat)
  visited : List String
  analyses : List PageAnalysis
deriving Repr, DecidableEq

def errorAnalysis (url e : String) : PageAnalysis :=
  { url := url, error := some e }

/-- The link-expansion stage of one loop iteration: filter the page's
links through `should_crawl_url` and the visited set, score them
(failures during prioritization demote to 0), sort stably by descending
priority, and enqueue while the queue stays below `2 * max_pages`. -/
def crawlExpand (fetch : String → Except String String) (base_domain : String)
    (max_pages : Nat) (url : String) (depth : Nat) (html : String)
    (visited' : List String) (qrest : List (String × Nat)) :
    List (String × Nat) :=
  let candidates := (extractPageLinks html url).filter (fun link =>
    shouldCrawlUrl link base_domain && !(visited'.contains (normalizeUrl link)))
  let prioritized : List (Int × String × Nat) := candidates.map (fun link =>
    match fetch link with
    | .error _ => ((0 : Int), link, depth + 1)
    | .ok linkHtml =>
      match prioritizeUrl link linkHtml with
      | .ok p => (p, link, depth + 1)
      | .error _ => ((0 : Int), link, depth + 1))
  (sortByPriorityDesc prioritized).foldl
    (fun q item =>
      if q.length < max_pages * 2 then q ++ [(item.2.1, item.2.2)] else q)
    qrest

/-- The visit stage of one loop iteration, after the visited-set check
passed: mark visited, analyze, and — when within the depth budget and
the analysis succeeded — re-fetch and expand links.  The network fetch
is modelled as a deterministic function of the URL, so the second fetch
of a successfully analyzed page cannot fail; the error branch of that
second fetch (the source's outer `except`, which appends a second,
error, record for the same page) is nevertheless kept, mirroring the
source. -/
def crawlVisit (fetch : String → Except String String) (idGen : Nat → String)
    (base_domain : String) (max_pages max_depth : Nat) (url : String)
    (depth : Nat) (qrest : List (String × Nat)) (st : CrawlState) : CrawlState :=
  let visited' := normalizeUrl url :: st.visited
  let pa := analyzePage fetch idGen url
  let analyses' := st.analyses ++ [pa]
  if depth < max_depth && pa.error.isNone then
    match fetch url with
    | .error e =>
      { queue := qrest, visited := visited',
        analyses := analyses' ++ [errorAnalysis url e] }
    | .ok html =>
      { queue := crawlExpand fetch base_domain max_pages url depth html visited' qrest
        visited := visited', analyses := analyses' }
  else { queue := qrest, visited := visited', analyses := analyses' }

/-- One iteration of the `crawl_website` loop; `none` when the loop
condition fails (empty queue or page budget reached). -/
def crawlStep (fetch : String → Except String String) (idGen : Nat → String)
    (base_domain : String) (max_pages max_depth : Nat) (st : CrawlState) :
    Option CrawlState :=
  match st.queue with
  | [] => none
  | (url, depth) :: qrest =>
    if max_pages ≤ st.analyses.length then none
    else if st.visited.contains (normalizeUrl url) then
      some { st with queue := qrest }
    else
      some (crawlVisit fetch idGen base_domain max_pages max_depth url depth qrest st)

def crawlInit (start_url : String) : CrawlState :=
  { queue := [(start_url, 0)], visited := [], analyses := [] }

/-- Iterate a step function, collecting every state reached (the final
state included).  Fuel makes totality manifest; the invariant theorems
below hold for every fuel value. -/
def iterStates (step : CrawlState → Option CrawlState) :
    Nat → CrawlState → List CrawlState
  | 0, st => [st]
  | fuel + 1, st =>
    match step st with
    | none => [st]
    | some st' => st :: iterStates step fuel st'

def iterFinal (step : CrawlState → Option CrawlState) :
    Nat → CrawlState → CrawlState
  | 0, st => st
  | fuel + 1, st =>
    match step st with
    | none => st
    | some st' => iterFinal step fuel st'

/-- Enough loop iterations for any reachable crawl: each iteration pops
one queue entry; at most `max_pages` iterations push, each pushing at
most `2 * max_pages` entries. -/
def crawlFuel (max_pages : Nat) : Nat :=
  2 * max_pages * max_pages + max_pages + 1

def crawlTrace (fetch : String → Except String String) (idGen : Nat → String)
    (start_url : String) (max_pages max_depth : Nat) : List CrawlState :=
  iterStates
    (crawlStep fetch idGen (parseUrl start_url).netloc max_pages max_depth)
    (crawlFuel max_pages) (crawlInit start_url)

/-- `CrawlerService.crawl_website`: the page analyses at loop exit. -/
def crawlWebsite (fetch : String → Except String String) (idGen : Nat → String)
    (start_url : String) (max_pages max_depth : Nat) : List PageAnalysis :=
  (iterFinal
    (crawlStep fetch idGen (parseUrl start_url).netloc max_pages max_depth)
    (crawlFuel max_pages) (crawlInit start_url)).analyses

/-- Crawl invariant: the normalized URLs of the analyses are pairwise
distinct and each of them is recorded in the visited list. -/
def nodupInv (s : CrawlState) : Prop :=
  (s.analyses.map (fun a => normalizeUrl a.url)).Nodup ∧
    ∀ u ∈ s.analyses.map (fun a => normalizeUrl a.url),
      s.visited.contains u = true

/-- Crawl invariant: every queued or analyzed URL is the start URL
itself or is admitted by `should_crawl_url` for the base domain. -/
def admissibleInv (start b : String) (s : CrawlState) : Prop :=
  (∀ p ∈ s.queue, p.1 = start ∨ shouldCrawlUrl p.1 b = true) ∧
    ∀ a ∈ s.analyses, a.url = start ∨ shouldCrawlUrl a.url b = true

/-! ## Shared concrete inputs and helper lemmas -/

def demoCta : ExtractedCTA :=
  { id := "a", original_text := "Learn More", cta_type := "button" }

def demoIdGen : Nat → String := fun n => "cta-" ++ toString n

/-- Markup with a well-formed button followed by an unparsable fragment. -/
def malformedHtml : String :=
  "<div><button type=\"submit\">Sign up now</button><p <<oops"

/-- Markup with two case-variant buttons. -/
def twoButtonHtml : String :=
  "<button type=\"button\">Sign Up</button><button type=\"button\">sign up</button>"

/-! ## Claim theorems -/

/-- C9 (code_bug evidence): `prioritize_url` references the unbound name
`parsed_url`, so with any URL whose path has a nonempty slash-stripped
form (for example `https://example.com/pricing`) it raises `NameError`
instead of returning the priority score the claim describes; only
path-less URLs return normally (score `+3` for depth 0). -/
theorem prioritize_url_raises_name_error :
  prioritizeUrl "https://example.com/pricing" "" =
    Except.error "NameError: name \x27parsed_url\x27 is not defined" ∧
  prioritizeUrl "https://example.com" "" = Except.ok 3 := by
  constructor <;> rfl

/-- C4 (counterexample): an image of width 30px is classified invalid by
`validate_image`, yet `process_image_data` — the image-analysis path —
performs OCR on it and returns normally: no validation error is raised
before the OCR call, because `validate_image` is never invoked on that
path. -/
theorem image_validation_not_invoked_cex :
  validateImage { width := 30, height := 100, byteSize := 1000 } = false ∧
  (processImageData (fun _ => some { width := 30, height := 100, byteSize := 1000 })
      (fun _ => some "") (fun _ => "") "img" none).ocrAttempted = true ∧
  (processImageData (fun _ => some { width := 30, height := 100, byteSize := 1000 })
      (fun _ => some "") (fun _ => "") "img" none).result = Except.ok [] := by
  refine ⟨by rfl, by rfl, by rfl⟩

/-- C4 (amended): `validate_image` returns `False` exactly when a
dimension is below 50px or above 5000px or the decoded payload exceeds
10MB, but the image-analysis path never invokes it: whenever decoding
succeeds, `process_image_data` attempts OCR regardless of those
thresholds, so no validation error is raised pre-OCR. -/
theorem validate_image_thresholds :
  (∀ info : ImageInfo, validateImage info = true ↔
     (50 ≤ info.width ∧ info.width ≤ 5000 ∧ 50 ≤ info.height ∧
      info.height ≤ 5000 ∧ info.byteSize ≤ 10 * 1024 * 1024)) ∧
  (∀ decode ocr idGen s ctx info, decode s = some info →
     (processImageData decode ocr idGen s ctx).ocrAttempted = true) := by
  constructor
  · intro info
    simp only [validateImage]
    split_ifs with h1 h2 h3 <;> simp_all <;> omega
  · intro decode ocr idGen s ctx info h
    unfold processImageData
    rw [h]
    show (processDecodedImage ocr idGen ctx info).ocrAttempted = true
    unfold processDecodedImage
    cases ocr info <;> rfl

/-- C4 (witness): the amended theorem applied to a width-30 image. -/
theorem validate_image_thresholds_witness :
  (processImageData (fun _ => some { width := 30, height := 100, byteSize := 1000 })
      (fun _ => some "") (fun _ => "") "img" none).ocrAttempted = true :=
  validate_image_thresholds.2 _ _ _ "img" none
    { width := 30, height := 100, byteSize := 1000 } rfl

/-- C6 (counterexample): on the spec's example input the second candidate
keeps the trailing period — its `original_text` is `"Sign Up Today."`,
not `"Sign Up Today"` as the claim states — because the final `.` is not
followed by whitespace and is therefore not consumed by the sentence
split. -/
theorem extract_from_text_trailing_period_cex :
  ((extractFromText (fun _ => "") "Get Started Now. About Us. Sign Up Today." none).map
     (fun c => c.original_text)) = ["Get Started Now", "Sign Up Today."] ∧
  ("Sign Up Today." : String) ≠ "Sign Up Today" := by
  refine ⟨by rfl, by decide⟩

lemma extractFromTextAux_length (idGen : Nat → String) (all : List String)
    (ctx : Option String) :
    ∀ l i k, (extractFromTextAux idGen all ctx l i k).length =
      (l.filter (fun s => isPotentialCta (trimPy s))).length := by
  intro l
  induction l with
  | nil => intro i k; rfl
  | cons s rest ih =>
    intro i k
    by_cases h : isPotentialCta (trimPy s)
    · simp [extractFromTextAux, h, List.filter_cons, ih]
    · simp [extractFromTextAux, h, List.filter_cons, ih]

/-- C6 (amended): on the example input, exactly two candidates are
produced — `"Get Started Now"` (segment 1) and `"Sign Up Today."` with
the trailing period retained (segment 3) — `"About Us"` is rejected; in
general one candidate is produced per qualifying sentence, with the
1-indexed segment number in its location. -/
theorem extract_from_text_segments :
  (∀ idGen : Nat → String,
     (extractFromText idGen "Get Started Now. About Us. Sign Up Today." none).map
       (fun c => (c.original_text, c.location)) =
     [("Get Started Now", some "Text segment 1"),
      ("Sign Up Today.", some "Text segment 3")]) ∧
  (∀ idGen text ctx, (extractFromText idGen text ctx).length =
     ((splitSentences text).filter (fun s => isPotentialCta (trimPy s))).length) := by
  constructor
  · intro idGen; rfl
  · intro idGen text ctx
    exact extractFromTextAux_length idGen _ ctx _ 0 0

/-- C7 (counterexample): for the one-word text `"See"` no table entry
matches and the word count is at most 2, yet the fallback returns the
text unchanged rather than `"Get See"` — the prepend step additionally
requires that none of get/start/try/join/see/discover occurs as a
substring of the lower-cased text, and `"see"` does. -/
theorem fallback_get_prepend_cex :
  fallbackTable.find? (fun q => containsWordB q.1 (lowerStr (trimPy "See"))) = none ∧
  (wordsOf (trimPy "See")).length ≤ 2 ∧
  applyBasicOptimizationRules "See" = "See" ∧
  ("See" : String) ≠ "Get See" := by
  refine ⟨by rfl, by decide, by rfl, by decide⟩

/-- C7 (amended): the fallback rewrite is a deterministic function of the
original text: the first matching entry of the ordered substitution table
is returned (`"Learn More"` always yields `"See How It Works"`); if no
entry matches, the text has at most 2 words AND no action word among
get/start/try/join/see/discover occurs as a substring of the lower-cased
text, `"Get "` is prepended to the trimmed text; otherwise the trimmed
text is returned unchanged; and every fallback result carries
`optimization_type = "fallback"`, `confidence_score = 0.5` and
`urgency_level = 5`, one result per candidate in order. -/
theorem fallback_rules_behavior :
  applyBasicOptimizationRules "Learn More" = "See How It Works" ∧
  (∀ t p, fallbackTable.find?
      (fun q => containsWordB q.1 (lowerStr (trimPy t))) = some p →
     applyBasicOptimizationRules t = p.2) ∧
  (∀ t, fallbackTable.find?
      (fun q => containsWordB q.1 (lowerStr (trimPy t))) = none →
     actionWords.any (fun w => containsSub (lowerStr (trimPy t)) w) = false →
     (wordsOf (trimPy t)).length ≤ 2 →
     applyBasicOptimizationRules t = "Get " ++ trimPy t) ∧
  (∀ t, fallbackTable.find?
      (fun q => containsWordB q.1 (lowerStr (trimPy t))) = none →
     (actionWords.any (fun w => containsSub (lowerStr (trimPy t)) w) = true ∨
      2 < (wordsOf (trimPy t)).length) →
     applyBasicOptimizationRules t = trimPy t) ∧
  (∀ ctas, (createFallbackOptimizations ctas).map (fun r => r.original_cta_id) =
     ctas.map (fun c => c.id)) ∧
  (∀ ctas r, r ∈ createFallbackOptimizations ctas →
     r.optimization_type = "fallback" ∧ r.confidence_score = 1/2 ∧
     r.urgency_level = 5 ∧
     ∃ c ∈ ctas, r.original_cta_id = c.id ∧
       r.optimized_text = applyBasicOptimizationRules c.original_text) := by
  refine ⟨by rfl, ?_, ?_, ?_, ?_, ?_⟩
  · intro t p h
    simp [applyBasicOptimizationRules, h]
  · intro t h1 h2 h3
    simp [applyBasicOptimizationRules, h1, h2, h3]
  · intro t h1 h2
    rcases h2 with h2 | h2
    · simp [applyBasicOptimizationRules, h1, h2]
    · have hn : ¬((wordsOf (trimPy t)).length ≤ 2) := by omega
      simp [applyBasicOptimizationRules, h1, hn]
  · intro ctas
    simp [createFallbackOptimizations, List.map_map]
  · intro ctas r hr
    rw [createFallbackOptimizations, List.mem_map] at hr
    obtain ⟨c, hc, rfl⟩ := hr
    exact ⟨rfl, rfl, rfl, c, hc, rfl, rfl⟩

/-- C7 (witness): the amended theorem applied to concrete inputs — the
prepend branch at `"Buy Now"` and the metadata clauses at a singleton
candidate list. -/
theorem fallback_rules_behavior_witness :
  applyBasicOptimizationRules "Buy Now" = "Get " ++ trimPy "Buy Now" ∧
  (createFallbackOptimizations [demoCta]).map (fun r => r.original_cta_id) =
    [demoCta].map (fun c => c.id) :=
  ⟨fallback_rules_behavior.2.2.1 "Buy Now" (by rfl) (by rfl) (by decide),
   fallback_rules_behavior.2.2.2.2.1 [demoCta]⟩

lemma positionalFallback_mem {ctas : List ExtractedCTA} {k : Nat}
    {c : ExtractedCTA} (h : positionalFallback ctas k = some c) : c ∈ ctas := by
  unfold positionalFallback at h
  split at h
  · cases ctas with
    | nil => simp at h
    | cons a l => simp at h; rw [← h]; exact List.mem_cons_self a l
  · simp at h

lemma matchEntry_mem {ctas : List ExtractedCTA} {k : Nat} {e : OptEntry}
    {c : ExtractedCTA} (h : matchEntry ctas k e = some c) : c ∈ ctas := by
  unfold matchEntry at h
  rcases he : e.original_cta_id with _ | i
  · rw [he] at h
    simp only [matchEntryCore] at h
    exact positionalFallback_mem h
  · rw [he] at h
    simp only [matchEntryCore] at h
    rcases hl : lookupCta ctas i with _ | d
    · rw [hl] at h
      exact positionalFallback_mem h
    · rw [hl] at h
      cases h
      have := List.mem_of_find?_eq_some hl
      exact List.mem_reverse.mp this

lemma parseOptimizationAux_mem (ctas : List ExtractedCTA) :
    ∀ entries acc r, r ∈ parseOptimizationAux ctas entries acc →
      r ∈ acc ∨ ∃ e c, c ∈ ctas ∧ r = buildOptimized e c := by
  intro entries
  induction entries with
  | nil =>
    intro acc r h
    simp only [parseOptimizationAux] at h
    exact Or.inl (List.mem_reverse.mp h)
  | cons e rest ih =>
    intro acc r h
    simp only [parseOptimizationAux] at h
    rcases hm : matchEntry ctas acc.length e with _ | c
    · rw [hm] at h
      exact ih acc r h
    · rw [hm] at h
      rcases ih _ r h with hacc | hbuilt
      · rcases List.mem_cons.mp hacc with rfl | hacc2
        · exact Or.inr ⟨e, c, matchEntry_mem hm, rfl⟩
        · exact Or.inl hacc2
      · exact Or.inr hbuilt

lemma buildOptimized_bounds (e : OptEntry) (c : ExtractedCTA) :
    0 ≤ (buildOptimized e c).confidence_score ∧
    (buildOptimized e c).confidence_score ≤ 1 ∧
    0 ≤ (buildOptimized e c).urgency_level ∧
    (buildOptimized e c).urgency_level ≤ 10 := by
  simp only [buildOptimized, pyMinQ, pyMaxQ, pyMinI, pyMaxI]
  refine ⟨?_, ?_, ?_, ?_⟩ <;> split_ifs <;> linarith

/-- C8: numeric fields of a parsed optimization are clamped on ingestion
rather than rejected — every stored `confidence_score` lies in `[0, 1]`
and every stored `urgency_level` in `[0, 10]`; concretely, a response
entry with `confidence_score = 1.7` is stored as `1.0` and one with
`urgency_level = -3` as `0`, and missing values default to `0.7` and `5`. -/
theorem parse_response_clamps_numeric :
  (∀ entries ctas r, r ∈ parseOptimizationResponse entries ctas →
     0 ≤ r.confidence_score ∧ r.confidence_score ≤ 1 ∧
     0 ≤ r.urgency_level ∧ r.urgency_level ≤ 10) ∧
  ((parseOptimizationResponse
      [{ original_cta_id := some "a", confidence_score := some (17/10),
         urgency_level := some (-3) }] [demoCta]).map
     (fun r => (r.confidence_score, r.urgency_level)) = [(1, 0)]) ∧
  ((parseOptimizationResponse [{ original_cta_id := some "a" }] [demoCta]).map
     (fun r => (r.confidence_score, r.urgency_level)) = [(7/10, 5)]) := by
  refine ⟨?_, ?_, ?_⟩
  · intro entries ctas r h
    rcases parseOptimizationAux_mem ctas entries [] r h with h0 | ⟨e, c, _, rfl⟩
    · simp at h0
    · exact buildOptimized_bounds e c
  · show _ = [((1 : ℚ), (0 : Int))]
    norm_num [parseOptimizationResponse, parseOptimizationAux, matchEntry,
      lookupCta, buildOptimized, demoCta, pyMinQ, pyMaxQ, pyMinI, pyMaxI,
      List.find?]
    rfl
  · show _ = [((7/10 : ℚ), (5 : Int))]
    norm_num [parseOptimizationResponse, parseOptimizationAux, matchEntry,
      lookupCta, buildOptimized, demoCta, pyMinQ, pyMaxQ, pyMinI, pyMaxI,
      List.find?]
    rfl

/-- C8 (witness): the general clamping bounds applied to the concrete
`1.7` / `-3` entry matched against a singleton candidate list. -/
theorem parse_response_clamps_numeric_witness :
  ∀ r ∈ parseOptimizationResponse
      [{ original_cta_id := some "a", confidence_score := some (17/10),
         urgency_level := some (-3) : OptEntry }] [demoCta],
    0 ≤ r.confidence_score ∧ r.confidence_score ≤ 1 ∧
    0 ≤ r.urgency_level ∧ r.urgency_level ≤ 10 :=
  fun r hr => parse_response_clamps_numeric.1 _ [demoCta] r hr

lemma toBatchesAux_flatten :
    ∀ fuel l, l.length ≤ fuel → (toBatchesAux fuel l).flatten = l := by
  intro fuel
  induction fuel with
  | zero =>
    intro l h
    have : l = [] := List.eq_nil_of_length_eq_zero (Nat.le_zero.mp h)
    subst this; rfl
  | succ n ih =>
    intro l h
    cases l with
    | nil => rfl
    | cons x xs =>
      simp only [toBatchesAux, List.flatten_cons]
      rw [ih ((x :: xs).drop 10) (by simp at h ⊢; omega)]
      exact List.take_append_drop 10 (x :: xs)

lemma toBatches_flatten (l : List ExtractedCTA) : (toBatches l).flatten = l :=
  toBatchesAux_flatten l.length l le_rfl

lemma foldl_append_batches (g : List ExtractedCTA → List OptimizedCTA) :
    ∀ (batches : List (List ExtractedCTA)) (init : List OptimizedCTA),
      batches.foldl (fun acc b => acc ++ g b) init = init ++ (batches.map g).flatten := by
  intro batches
  induction batches with
  | nil => intro init; simp
  | cons b rest ih =>
    intro init
    simp only [List.foldl_cons, List.map_cons, List.flatten_cons, ih,
      List.append_assoc]

lemma createFallback_ids (ctas : List ExtractedCTA) :
    (createFallbackOptimizations ctas).map (fun r => r.original_cta_id) =
      ctas.map (fun c => c.id) := by
  simp [createFallbackOptimizations, List.map_map]

lemma parseOptimizationAux_length (ctas : List ExtractedCTA) :
    ∀ entries acc, (parseOptimizationAux ctas entries acc).length ≤
      entries.length + acc.length := by
  intro entries
  induction entries with
  | nil => intro acc; simp [parseOptimizationAux]
  | cons e rest ih =>
    intro acc
    simp only [parseOptimizationAux]
    rcases hm : matchEntry ctas acc.length e with _ | c
    · have := ih acc
      simp only [List.length_cons]
      omega
    · have := ih (buildOptimized e c :: acc)
      simp only [List.length_cons] at this ⊢
      omega

/-- C1 (counterexample): a successful batch can yield fewer results than
candidates — a decoded reply whose `optimizations` array is empty
produces zero results for a one-candidate batch, with no fallback
substitution (the batch did not raise). -/
theorem optimize_ctas_dropped_result_cex :
  optimizeCtas (fun _ => Except.ok []) [demoCta] = [] ∧
  ([demoCta] : List ExtractedCTA).length = 1 := by
  exact ⟨by rfl, by rfl⟩

/-- C1 (amended): a failed batch is replaced by exactly one fallback
result per candidate in order (so when every batch fails the output ids
equal the input candidate ids); a successful batch contributes at most
one result per optimization entry of the parsed reply — entries may be
dropped, or matched to the same (first) candidate when their id is
unrecognised, so a successful batch can yield fewer results than
candidates or several results for one candidate; every result references
the id of some input candidate of its batch. -/
theorem optimize_ctas_batch_accounting :
  (∀ respond ctas, (∀ batch, respond batch = Except.error ()) →
     (optimizeCtas respond ctas).map (fun r => r.original_cta_id) =
       ctas.map (fun c => c.id)) ∧
  (∀ entries ctas,
     (parseOptimizationResponse entries ctas).length ≤ entries.length) ∧
  (∀ entries ctas r, r ∈ parseOptimizationResponse entries ctas →
     ∃ c ∈ ctas, r.original_cta_id = c.id) := by
  refine ⟨?_, ?_, ?_⟩
  · intro respond ctas hresp
    unfold optimizeCtas
    split
    · rename_i hemp
      rw [List.isEmpty_iff.mp hemp]
      rfl
    · rw [foldl_append_batches _ (toBatches ctas) []]
      simp only [List.nil_append]
      have harm : ∀ b : List ExtractedCTA,
          (match respond b with
           | .ok entries => parseOptimizationResponse entries b
           | .error _ => createFallbackOptimizations b) =
          createFallbackOptimizations b := by
        intro b; rw [hresp b]
      calc ((toBatches ctas).map (fun b =>
              match respond b with
              | .ok entries => parseOptimizationResponse entries b
              | .error _ => createFallbackOptimizations b)).flatten.map
                (fun r => r.original_cta_id)
          = ((toBatches ctas).map createFallbackOptimizations).flatten.map
                (fun r => r.original_cta_id) := by
            congr 2
            exact List.map_congr_left (fun b _ => harm b)
        _ = ((toBatches ctas).map (fun b =>
              (createFallbackOptimizations b).map (fun r => r.original_cta_id))).flatten := by
            rw [List.map_flatten, List.map_map]
            rfl
        _ = ((toBatches ctas).map (fun b => b.map (fun c => c.id))).flatten := by
            congr 1
            exact List.map_congr_left (fun b _ => createFallback_ids b)
        _ = (toBatches ctas).flatten.map (fun c => c.id) := by
            rw [List.map_flatten]
        _ = ctas.map (fun c => c.id) := by rw [toBatches_flatten]
  · intro entries ctas
    simpa using parseOptimizationAux_length ctas entries []
  · intro entries ctas r h
    rcases parseOptimizationAux_mem ctas entries [] r h with h0 | ⟨e, c, hc, rfl⟩
    · simp at h0
    · exact ⟨c, hc, rfl⟩

/-- C1 (witness): the all-batches-fail clause applied to a singleton
candidate list with an always-failing backend. -/
theorem optimize_ctas_batch_accounting_witness :
  (optimizeCtas (fun _ => Except.error ()) [demoCta]).map
      (fun r => r.original_cta_id) = [demoCta].map (fun c => c.id) :=
  optimize_ctas_batch_accounting.1 _ [demoCta] (fun _ => rfl)

lemma dedupAux_sublist :
    ∀ (l : List ExtractedCTA) (seen : List String), (dedupAux seen l).Sublist l := by
  intro l
  induction l with
  | nil => intro seen; simp [dedupAux]
  | cons c rest ih =>
    intro seen
    simp only [dedupAux]
    split
    · exact (ih seen).cons c
    · exact (ih _).cons₂ c

lemma dedupAux_not_seen :
    ∀ (l : List ExtractedCTA) (seen : List String) d, d ∈ dedupAux seen l →
      seen.contains (lowerStr d.original_text) = false := by
  intro l
  induction l with
  | nil => intro seen d h; simp [dedupAux] at h
  | cons c rest ih =>
    intro seen d h
    simp only [dedupAux] at h
    split at h
    · exact ih seen d h
    · rename_i hc
      rcases List.mem_cons.mp h with rfl | h2
      · exact Bool.eq_false_iff.mpr hc
      · have := ih _ d h2
        simp only [List.contains_cons, Bool.or_eq_false_iff] at this
        exact this.2

lemma dedupAux_nodup_keys :
    ∀ (l : List ExtractedCTA) (seen : List String),
      ((dedupAux seen l).map (fun c => lowerStr c.original_text)).Nodup := by
  intro l
  induction l with
  | nil => intro seen; simp [dedupAux]
  | cons c rest ih =>
    intro seen
    simp only [dedupAux]
    split
    · exact ih seen
    · simp only [List.map_cons, List.nodup_cons]
      refine ⟨?_, ih _⟩
      intro hmem
      rcases List.mem_map.mp hmem with ⟨d, hd, hkey⟩
      have := dedupAux_not_seen rest _ d hd
      simp only [List.contains_cons, Bool.or_eq_false_iff] at this
      have hbeq := this.1
      rw [hkey] at hbeq
      simp at hbeq

lemma dedupAux_covers :
    ∀ (l : List ExtractedCTA) (seen : List String) c, c ∈ l →
      seen.contains (lowerStr c.original_text) = false →
      ∃ d ∈ dedupAux seen l,
        lowerStr d.original_text = lowerStr c.original_text := by
  intro l
  induction l with
  | nil => intro seen c hc; simp at hc
  | cons a rest ih =>
    intro seen c hc hns
    simp only [dedupAux]
    rcases List.mem_cons.mp hc with rfl | hrest
    · split
      · rename_i hcont
        rw [hns] at hcont
        simp at hcont
      · exact ⟨_, List.mem_cons_self _ _, rfl⟩
    · split
      · exact ih seen c hrest hns
      · by_cases hkey : lowerStr a.original_text = lowerStr c.original_text
        · exact ⟨a, List.mem_cons_self a _, hkey⟩
        · have hns2 : (lowerStr a.original_text :: seen).contains
              (lowerStr c.original_text) = false := by
            simp only [List.contains_cons, Bool.or_eq_false_iff]
            refine ⟨?_, hns⟩
            simp only [beq_eq_false_iff_ne, ne_eq]
            exact fun he => hkey he.symm
          obtain ⟨d, hd, he⟩ := ih _ c hrest hns2
          exact ⟨d, List.mem_cons_of_mem a hd, he⟩

lemma dedupAux_first :
    ∀ (l : List ExtractedCTA) (seen : List String) d, d ∈ dedupAux seen l →
      l.find? (fun c => lowerStr c.original_text == lowerStr d.original_text) =
        some d := by
  intro l
  induction l with
  | nil => intro seen d h; simp [dedupAux] at h
  | cons a rest ih =>
    intro seen d h
    simp only [dedupAux] at h
    split at h
    · rename_i hcont
      have hd := dedupAux_not_seen rest seen d h
      have hne : (lowerStr a.original_text == lowerStr d.original_text) = false := by
        simp only [beq_eq_false_iff_ne, ne_eq]
        intro he
        rw [← he, hcont] at hd
        exact Bool.true_eq_false.mp hd
      rw [List.find?_cons_of_neg _ (by simp [hne])]
      exact ih seen d h
    · rcases List.mem_cons.mp h with rfl | h2
      · rw [List.find?_cons_of_pos _ (by simp)]
      · have hd := dedupAux_not_seen rest _ d h2
        simp only [List.contains_cons, Bool.or_eq_false_iff] at hd
        have hne : (lowerStr a.original_text == lowerStr d.original_text) = false := by
          have := hd.1
          simp only [beq_eq_false_iff_ne, ne_eq] at this ⊢
          exact fun he => this he.symm
        rw [List.find?_cons_of_neg _ (by simp [hne])]
        exact ih _ d h2

lemma extractButtonCtas_nonempty {forest : HtmlForest} {url : Option String}
    {c : ExtractedCTA} (h : c ∈ extractButtonCtas forest url) :
    c.original_text ≠ "" := by
  simp only [extractButtonCtas, List.mem_filterMap] at h
  obtain ⟨l, _, hbody⟩ := h
  split at hbody
  · split at hbody
    · simp at hbody
    · rename_i hguard
      simp only [Bool.or_eq_true, not_or] at hguard
      cases hbody
      intro he
      exact hguard.1 (by rw [show elementText l.node = "" from he]; rfl)
  · simp at hbody

lemma extractLinkCtas_nonempty {forest : HtmlForest} {url : Option String}
    {c : ExtractedCTA} (h : c ∈ extractLinkCtas forest url) :
    c.original_text ≠ "" := by
  simp only [extractLinkCtas, List.mem_filterMap] at h
  obtain ⟨l, _, hbody⟩ := h
  split at hbody
  · split at hbody
    · simp at hbody
    · split at hbody
      · simp at hbody
      · split at hbody
        · simp at hbody
        · rename_i hguard _
          simp only [Bool.or_eq_true, not_or] at hguard
          cases hbody
          intro he
          exact hguard.1 (by rw [show elementText l.node = "" from he]; rfl)
  · simp at hbody

lemma extractFormCtas_nonempty {forest : HtmlForest} {url : Option String}
    {c : ExtractedCTA} (h : c ∈ extractFormCtas forest url) :
    c.original_text ≠ "" := by
  simp only [extractFormCtas, List.mem_flatMap] at h
  obtain ⟨l, _, hin⟩ := h
  split at hin
  · simp only [List.mem_filterMap] at hin
    obtain ⟨s, _, hbody⟩ := hin
    split at hbody
    · split at hbody
      · simp at hbody
      · rename_i hguard
        cases hbody
        intro he
        exact hguard (by rw [show elementText s.node = "" from he]; rfl)
    · simp at hbody
  · simp at hin

lemma extractTextCtas_nonempty {forest : HtmlForest} {url : Option String}
    {c : ExtractedCTA} (h : c ∈ extractTextCtas forest url) :
    c.original_text ≠ "" := by
  simp only [extractTextCtas, List.mem_filterMap] at h
  obtain ⟨l, _, hbody⟩ := h
  split at hbody
  · split at hbody
    · simp at hbody
    · split at hbody
      · rename_i hguard _
        simp only [Bool.or_eq_true, not_or] at hguard
        cases hbody
        intro he
        exact hguard.1 (by rw [show getTextStrip l.node = "" from he]; rfl)
      · simp at hbody
  · simp at hbody

lemma mem_assignIds {l : List ExtractedCTA} {g : Nat → String} {c : ExtractedCTA}
    (h : c ∈ l.enum.map (fun p => { p.2 with id := g p.1 })) :
    ∃ d ∈ l, c.original_text = d.original_text := by
  rcases List.mem_map.mp h with ⟨p, hp, rfl⟩
  refine ⟨p.2, ?_, rfl⟩
  have : p.2 ∈ l.enum.map Prod.snd := List.mem_map_of_mem Prod.snd hp
  rwa [List.enum_map_snd] at this

/-- C2: for every HTML string — malformed markup included — and source
URL, `extract_from_html` returns a well-defined candidate list (the
embedding is a total function of the input string; the lenient parse
skips unparsable fragments) and every returned candidate has nonempty
`original_text`; concretely, markup whose tail fragment is unparsable
still yields the candidates of its well-formed prefix. -/
theorem extract_from_html_total_and_skips_unparsable :
  (∀ idGen html url c, c ∈ extractFromHtml idGen html url →
     c.original_text ≠ "") ∧
  ((extractFromHtml demoIdGen malformedHtml none).map
     (fun c => c.original_text) = ["Sign up now"]) := by
  constructor
  · intro idGen html url c hc
    unfold extractFromHtml deduplicateCtas at hc
    have hc2 := (dedupAux_sublist _ []).subset hc
    obtain ⟨d, hd, he⟩ := mem_assignIds hc2
    rw [he]
    rcases List.mem_append.mp hd with h3 | h4
    · rcases List.mem_append.mp h3 with h5 | h6
      · rcases List.mem_append.mp h5 with h7 | h8
        · exact extractButtonCtas_nonempty h7
        · exact extractLinkCtas_nonempty h8
      · exact extractFormCtas_nonempty h6
    · exact extractTextCtas_nonempty h4
  · rfl

/-- C2 (witness): the nonempty-text clause applied to the concrete
candidate extracted from the malformed markup. -/
theorem extract_from_html_total_witness :
  ((extractFromHtml demoIdGen malformedHtml none).headD demoCta).original_text ≠ "" :=
  extract_from_html_total_and_skips_unparsable.1 demoIdGen malformedHtml none _
    (by decide)

/-- C3: within one extraction call candidates are deduplicated
case-insensitively by `original_text` — the result is a subsequence of
the input whose lower-cased texts are pairwise distinct, every input key
is represented, and each survivor is the first input element bearing its
key — and markup with two case-variant buttons ("Sign Up" / "sign up")
yields exactly one candidate. -/
theorem dedup_case_insensitive_first_wins :
  (∀ l : List ExtractedCTA,
     (deduplicateCtas l).Sublist l ∧
     ((deduplicateCtas l).map (fun c => lowerStr c.original_text)).Nodup ∧
     (∀ c ∈ l, ∃ d ∈ deduplicateCtas l,
        lowerStr d.original_text = lowerStr c.original_text) ∧
     (∀ d ∈ deduplicateCtas l,
        l.find? (fun c => lowerStr c.original_text == lowerStr d.original_text) =
          some d)) ∧
  ((extractFromHtml demoIdGen twoButtonHtml none).map
     (fun c => c.original_text) = ["Sign Up"]) := by
  constructor
  · intro l
    refine ⟨dedupAux_sublist l [], dedupAux_nodup_keys l [], ?_, ?_⟩
    · intro c hc
      exact dedupAux_covers l [] c hc rfl
    · intro d hd
      exact dedupAux_first l [] d hd
  · rfl

/-- C3 (witness): the coverage clause applied to a singleton list. -/
theorem dedup_case_insensitive_first_wins_witness :
  ∃ d ∈ deduplicateCtas [demoCta],
    lowerStr d.original_text = lowerStr demoCta.original_text :=
  (dedup_case_insensitive_first_wins.1 [demoCta]).2.2.1 demoCta (by simp)

lemma iterStates_inv (step : CrawlState → Option CrawlState)
    (P : CrawlState → Prop)
    (hstep : ∀ s s', P s → step s = some s' → P s') :
    ∀ fuel s, P s → ∀ t ∈ iterStates step fuel s, P t := by
  intro fuel
  induction fuel with
  | zero =>
    intro s hs t ht
    simp only [iterStates, List.mem_singleton] at ht
    rwa [ht]
  | succ n ih =>
    intro s hs t ht
    simp only [iterStates] at ht
    rcases hss : step s with _ | s'
    · rw [hss] at ht
      simp only [List.mem_singleton] at ht
      rwa [ht]
    · rw [hss] at ht
      rcases List.mem_cons.mp ht with rfl | ht2
      · exact hs
      · exact ih s' (hstep s s' hs hss) t ht2

lemma iterFinal_inv (step : CrawlState → Option CrawlState)
    (P : CrawlState → Prop)
    (hstep : ∀ s s', P s → step s = some s' → P s') :
    ∀ fuel s, P s → P (iterFinal step fuel s) := by
  intro fuel
  induction fuel with
  | zero => intro s hs; exact hs
  | succ n ih =>
    intro s hs
    simp only [iterFinal]
    rcases hss : step s with _ | s'
    · exact hs
    · exact ih s' (hstep s s' hs hss)

lemma analyzePage_error_of_fetch {fetch : String → Except String String}
    {idGen : Nat → String} {url e : String} (h : fetch url = .error e) :
    (analyzePage fetch idGen url).error = some e := by
  unfold analyzePage
  rw [h]

lemma analyzePage_url (fetch : String → Except String String)
    (idGen : Nat → String) (url : String) :
    (analyzePage fetch idGen url).url = url := by
  unfold analyzePage
  rcases fetch url <;> rfl

lemma crawlVisit_visited (fetch : String → Except String String)
    (idGen : Nat → String) (b : String) (mp md : Nat) (url : String)
    (depth : Nat) (qrest : List (String × Nat)) (st : CrawlState) :
    (crawlVisit fetch idGen b mp md url depth qrest st).visited =
      normalizeUrl url :: st.visited := by
  simp only [crawlVisit]
  rcases hf : fetch url with e | html <;> split <;> rfl

lemma crawlVisit_analyses (fetch : String → Except String String)
    (idGen : Nat → String) (b : String) (mp md : Nat) (url : String)
    (depth : Nat) (qrest : List (String × Nat)) (st : CrawlState) :
    (crawlVisit fetch idGen b mp md url depth qrest st).analyses =
      st.analyses ++ [analyzePage fetch idGen url] := by
  simp only [crawlVisit]
  rcases hf : fetch url with e | html
  · rw [if_neg (by simp [analyzePage_error_of_fetch hf])]
  · split <;> rfl

lemma crawlVisit_analyses_urls {fetch : String → Except String String}
    {idGen : Nat → String} {b : String} {mp md : Nat} {url : String}
    {depth : Nat} {qrest : List (String × Nat)} {st : CrawlState}
    {a : PageAnalysis}
    (h : a ∈ (crawlVisit fetch idGen b mp md url depth qrest st).analyses) :
    a ∈ st.analyses ∨ a.url = url := by
  simp only [crawlVisit] at h
  rcases hf : fetch url with e | html
  · rw [hf] at h
    split at h
    · simp only [List.append_assoc, List.mem_append, List.mem_singleton] at h
      rcases h with h1 | h2 | h3
      · exact Or.inl h1
      · right; rw [h2]; exact analyzePage_url fetch idGen url
      · right; rw [h3]; rfl
    · simp only [List.mem_append, List.mem_singleton] at h
      rcases h with h1 | h2
      · exact Or.inl h1
      · right; rw [h2]; exact analyzePage_url fetch idGen url
  · rw [hf] at h
    split at h
    · simp only [List.mem_append, List.mem_singleton] at h
      rcases h with h1 | h2
      · exact Or.inl h1
      · right; rw [h2]; exact analyzePage_url fetch idGen url
    · simp only [List.mem_append, List.mem_singleton] at h
      rcases h with h1 | h2
      · exact Or.inl h1
      · right; rw [h2]; exact analyzePage_url fetch idGen url

lemma foldl_enqueue_length (cap : Nat) :
    ∀ (items : List (Int × String × Nat)) (q : List (String × Nat)),
      q.length ≤ cap →
      (items.foldl
        (fun q item => if q.length < cap then q ++ [(item.2.1, item.2.2)] else q)
        q).length ≤ cap := by
  intro items
  induction items with
  | nil => intro q h; exact h
  | cons it rest ih =>
    intro q h
    simp only [List.foldl_cons]
    by_cases hc : q.length < cap
    · rw [if_pos hc]
      exact ih _ (by simp; omega)
    · rw [if_neg hc]
      exact ih _ h

lemma foldl_enqueue_mem (cap : Nat) :
    ∀ (items : List (Int × String × Nat)) (q : List (String × Nat)) p,
      p ∈ items.foldl
        (fun q item => if q.length < cap then q ++ [(item.2.1, item.2.2)] else q) q →
      p ∈ q ∨ ∃ it ∈ items, p = (it.2.1, it.2.2) := by
  intro items
  induction items with
  | nil => intro q p h; exact Or.inl h
  | cons it rest ih =>
    intro q p h
    simp only [List.foldl_cons] at h
    rcases ih _ p h with hq | ⟨it2, h2, he⟩
    · by_cases hc : q.length < cap
      · rw [if_pos hc] at hq
        rcases List.mem_append.mp hq with h3 | h4
        · exact Or.inl h3
        · simp only [List.mem_singleton] at h4
          exact Or.inr ⟨it, List.mem_cons_self it rest, h4⟩
      · rw [if_neg hc] at hq
        exact Or.inl hq
    · exact Or.inr ⟨it2, List.mem_cons_of_mem it h2, he⟩

lemma insertDesc_mem {x : Int × String × Nat} :
    ∀ {l : List (Int × String × Nat)} {y}, y ∈ insertDesc x l → y = x ∨ y ∈ l := by
  intro l
  induction l with
  | nil =>
    intro y h
    simp only [insertDesc, List.mem_singleton] at h
    exact Or.inl h
  | cons z rest ih =>
    intro y h
    simp only [insertDesc] at h
    split at h
    · rcases List.mem_cons.mp h with rfl | h2
      · exact Or.inr (List.mem_cons_self _ _)
      · rcases ih h2 with h3 | h4
        · exact Or.inl h3
        · exact Or.inr (List.mem_cons_of_mem z h4)
    · rcases List.mem_cons.mp h with rfl | h2
      · exact Or.inl rfl
      · exact Or.inr h2

lemma sortByPriorityDesc_mem {l : List (Int × String × Nat)} {y}
    (h : y ∈ sortByPriorityDesc l) : y ∈ l := by
  unfold sortByPriorityDesc at h
  suffices haux : ∀ (l2 acc : List (Int × String × Nat)) y,
      y ∈ l2.foldl (fun acc x => insertDesc x acc) acc → y ∈ acc ∨ y ∈ l2 by
    rcases haux l [] y h with h1 | h2
    · simp at h1
    · exact h2
  intro l2
  induction l2 with
  | nil => intro acc y h; exact Or.inl h
  | cons x rest ih =>
    intro acc y h
    simp only [List.foldl_cons] at h
    rcases ih _ y h with h1 | h2
    · rcases insertDesc_mem h1 with rfl | h3
      · exact Or.inr (List.mem_cons_self _ _)
      · exact Or.inl h3
    · exact Or.inr (List.mem_cons_of_mem x h2)

lemma crawlExpand_mem {fetch : String → Except String String} {b : String}
    {mp : Nat} {url : String} {depth : Nat} {html : String}
    {visited' : List String} {qrest : List (String × Nat)}
    {p : String × Nat}
    (h : p ∈ crawlExpand fetch b mp url depth html visited' qrest) :
    p ∈ qrest ∨ shouldCrawlUrl p.1 b = true := by
  unfold crawlExpand at h
  rcases foldl_enqueue_mem _ _ _ _ h with hq | ⟨it, hit, he⟩
  · exact Or.inl hq
  · right
    have hit2 := sortByPriorityDesc_mem hit
    rcases List.mem_map.mp hit2 with ⟨link, hlink, hf⟩
    have hl2 := List.mem_filter.mp hlink
    have hshould : shouldCrawlUrl link b = true := by
      have := hl2.2
      simp only [Bool.and_eq_true] at this
      exact this.1
    have hfst : it.2.1 = link := by
      rw [← hf]
      rcases fetch link with _ | lh
      · rfl
      · show (match prioritizeUrl link lh with
          | .ok p => (p, link, depth + 1)
          | .error _ => ((0 : Int), link, depth + 1)).2.1 = link
        rcases prioritizeUrl link lh <;> rfl
    rw [he]
    simpa [hfst] using hshould

lemma crawlVisit_queue_length {fetch : String → Except String String}
    {idGen : Nat → String} {b : String} {mp md : Nat} {url : String}
    {depth : Nat} {qrest : List (String × Nat)} {st : CrawlState}
    (h : qrest.length ≤ mp * 2) :
    (crawlVisit fetch idGen b mp md url depth qrest st).queue.length ≤ mp * 2 := by
  simp only [crawlVisit]
  rcases hf : fetch url with e | html
  · split
    · exact h
    · exact h
  · split
    · exact foldl_enqueue_length _ _ _ h
    · exact h

lemma crawlVisit_queue_mem {fetch : String → Except String String}
    {idGen : Nat → String} {b : String} {mp md : Nat} {url : String}
    {depth : Nat} {qrest : List (String × Nat)} {st : CrawlState}
    {p : String × Nat}
    (h : p ∈ (crawlVisit fetch idGen b mp md url depth qrest st).queue) :
    p ∈ qrest ∨ shouldCrawlUrl p.1 b = true := by
  simp only [crawlVisit] at h
  rcases hf : fetch url with e | html
  · rw [hf] at h
    split at h
    · exact Or.inl h
    · exact Or.inl h
  · rw [hf] at h
    split at h
    · exact crawlExpand_mem h
    · exact Or.inl h

lemma crawlStep_cases {fetch : String → Except String String}
    {idGen : Nat → String} {b : String} {mp md : Nat} {s s' : CrawlState}
    (h : crawlStep fetch idGen b mp md s = some s') :
    ∃ url depth qrest, s.queue = (url, depth) :: qrest ∧
      s.analyses.length < mp ∧
      ((s.visited.contains (normalizeUrl url) = true ∧
        s' = { s with queue := qrest }) ∨
       (s.visited.contains (normalizeUrl url) = false ∧
        s' = crawlVisit fetch idGen b mp md url depth qrest s)) := by
  unfold crawlStep at h
  split at h
  · exact absurd h (by simp)
  · rename_i x url depth qrest hq
    refine ⟨url, depth, qrest, hq, ?_, ?_⟩
    · split at h
      · exact absurd h (by simp)
      · omega
    · split at h
      · exact absurd h (by simp)
      · split at h
        · rename_i hc
          simp only [Option.some.injEq] at h
          exact Or.inl ⟨hc, h.symm⟩
        · rename_i hc
          simp only [Option.some.injEq] at h
          exact Or.inr ⟨Bool.eq_false_iff.mpr hc, h.symm⟩

lemma crawlStep_analyses_le {fetch : String → Except String String}
    {idGen : Nat → String} {b : String} {mp md : Nat} (s s' : CrawlState)
    (hs : s.analyses.length ≤ mp)
    (h : crawlStep fetch idGen b mp md s = some s') :
    s'.analyses.length ≤ mp := by
  obtain ⟨url, depth, qrest, hq, hlen, hcase⟩ := crawlStep_cases h
  rcases hcase with ⟨_, rfl⟩ | ⟨hnv, rfl⟩
  · exact hs
  · rw [crawlVisit_analyses]
    simp only [List.length_append, List.length_singleton]
    omega

lemma crawlStep_nodup {fetch : String → Except String String}
    {idGen : Nat → String} {b : String} {mp md : Nat} (s s' : CrawlState)
    (hs : nodupInv s)
    (h : crawlStep fetch idGen b mp md s = some s') :
    nodupInv s' := by
  unfold nodupInv at hs ⊢
  obtain ⟨url, depth, qrest, hq, hlen, hcase⟩ := crawlStep_cases h
  rcases hcase with ⟨_, rfl⟩ | ⟨hnv, rfl⟩
  · exact hs
  · constructor
    · rw [crawlVisit_analyses, List.map_append]
      rw [List.nodup_append]
      refine ⟨hs.1, List.nodup_singleton _, ?_⟩
      intro u hu hmem
      simp only [List.map_cons, List.map_nil, List.mem_singleton,
        analyzePage_url] at hmem
      have hvis := hs.2 u hu
      rw [hmem, hnv] at hvis
      exact Bool.false_ne_true hvis
    · intro u hu
      rw [crawlVisit_visited, List.contains_cons]
      rw [crawlVisit_analyses, List.map_append] at hu
      simp only [List.mem_append, List.map_cons, List.map_nil,
        List.mem_singleton, analyzePage_url] at hu
      rcases hu with hu1 | hu2
      · rw [hs.2 u hu1]
        simp
      · rw [hu2]
        simp

lemma crawlStep_queue_le {fetch : String → Except String String}
    {idGen : Nat → String} {b : String} {mp md : Nat} (s s' : CrawlState)
    (hs : s.queue.length ≤ 2 * mp)
    (h : crawlStep fetch idGen b mp md s = some s') :
    s'.queue.length ≤ 2 * mp := by
  obtain ⟨url, depth, qrest, hq, hlen, hcase⟩ := crawlStep_cases h
  have hq' : qrest.length + 1 ≤ 2 * mp := by
    rw [hq] at hs
    simpa using hs
  rcases hcase with ⟨_, rfl⟩ | ⟨hnv, rfl⟩
  · simp only []
    omega
  · have := @crawlVisit_queue_length fetch idGen b mp md url depth qrest s
      (by omega)
    omega

lemma crawlStep_admissible {fetch : String → Except String String}
    {idGen : Nat → String} {b : String} {mp md : Nat} {start : String}
    (s s' : CrawlState)
    (hs : admissibleInv start b s)
    (h : crawlStep fetch idGen b mp md s = some s') :
    admissibleInv start b s' := by
  unfold admissibleInv at hs ⊢
  obtain ⟨url, depth, qrest, hq, hlen, hcase⟩ := crawlStep_cases h
  have hurl : url = start ∨ shouldCrawlUrl url b = true := by
    have := hs.1 (url, depth) (by rw [hq]; exact List.mem_cons_self _ _)
    simpa using this
  have hqrest : ∀ p ∈ qrest, p.1 = start ∨ shouldCrawlUrl p.1 b = true :=
    fun p hp => hs.1 p (by rw [hq]; exact List.mem_cons_of_mem _ hp)
  rcases hcase with ⟨_, rfl⟩ | ⟨hnv, rfl⟩
  · exact ⟨hqrest, hs.2⟩
  · constructor
    · intro p hp
      rcases crawlVisit_queue_mem hp with h1 | h2
      · exact hqrest p h1
      · exact Or.inr h2
    · intro a ha
      rcases crawlVisit_analyses_urls ha with h1 | h2
      · exact hs.2 a h1
      · rw [h2]
        exact hurl

lemma self_mem_iterStates (step : CrawlState → Option CrawlState) :
    ∀ fuel s, s ∈ iterStates step fuel s := by
  intro fuel s
  cases fuel with
  | zero => simp [iterStates]
  | succ n =>
    simp only [iterStates]
    rcases step s with _ | s2
    · simp
    · exact List.mem_cons_self _ _

/-- C5 (counterexample): with `maxPages = 0` the claim's queue bound
fails — the crawl state right after seeding holds one queue entry while
`2 × maxPages = 0`. -/
theorem crawl_queue_bound_cex :
  ∃ s ∈ crawlTrace (fun _ => Except.error "x") (fun _ => "") "http://a.com" 0 2,
    2 * 0 < s.queue.length := by
  refine ⟨crawlInit "http://a.com", ?_, by simp [crawlInit]⟩
  exact self_mem_iterStates _ _ _

/-- C5 (amended): for every fetcher, start URL and bounds, the crawl
produces at most `maxPages` page-analysis records and never analyzes a
URL whose normalized form (fragment stripped, trailing slash stripped)
was already visited — the normalized URLs of the analyses are pairwise
distinct; and provided `maxPages ≥ 1`, the crawl queue never exceeds
`2 × maxPages` entries in any reachable state (with `maxPages = 0` the
seeded queue alone already exceeds the bound). -/
theorem crawl_bounded_and_no_revisit :
  (∀ fetch idGen start mp md,
     (crawlWebsite fetch idGen start mp md).length ≤ mp) ∧
  (∀ fetch idGen start mp md,
     ((crawlWebsite fetch idGen start mp md).map
        (fun a => normalizeUrl a.url)).Nodup) ∧
  (∀ fetch idGen start mp md, 1 ≤ mp →
     ∀ s ∈ crawlTrace fetch idGen start mp md, s.queue.length ≤ 2 * mp) := by
  refine ⟨?_, ?_, ?_⟩
  · intro fetch idGen start mp md
    unfold crawlWebsite
    exact iterFinal_inv _ (fun s => s.analyses.length ≤ mp)
      (fun s s' hs h => crawlStep_analyses_le s s' hs h)
      (crawlFuel mp) (crawlInit start) (by simp [crawlInit])
  · intro fetch idGen start mp md
    unfold crawlWebsite
    have hinit2 : nodupInv (crawlInit start) := by
      unfold nodupInv
      simp [crawlInit]
    have hfin := iterFinal_inv (crawlStep fetch idGen (parseUrl start).netloc mp md)
      nodupInv
      (fun s s' hs h => crawlStep_nodup s s' hs h)
      (crawlFuel mp) (crawlInit start) hinit2
    exact hfin.1
  · intro fetch idGen start mp md hmp s hst
    unfold crawlTrace at hst
    exact iterStates_inv _ (fun s => s.queue.length ≤ 2 * mp)
      (fun s s' hs h => crawlStep_queue_le s s' hs h)
      (crawlFuel mp) (crawlInit start) (by simp [crawlInit]; omega) s hst

/-- C5 (witness): the queue bound applied at `maxPages = 3` to the
initial state of a concrete crawl. -/
theorem crawl_bounded_and_no_revisit_witness :
  (crawlInit "http://a.com").queue.length ≤ 2 * 3 :=
  crawl_bounded_and_no_revisit.2.2 (fun _ => Except.error "x") (fun _ => "")
    "http://a.com" 3 2 (by norm_num) (crawlInit "http://a.com")
    (self_mem_iterStates _ _ _)

/-- C10: any URL whose lower-cased form contains "register" (likewise
"login", "logout") is rejected by `should_crawl_url` for every base
domain, so the crawl never analyzes such a link — every analyzed page is
the start URL itself or free of those substrings — even though
"register" and "signup" sit in `prioritize_url`'s high-priority keyword
list. -/
theorem auth_keywords_never_crawled :
  (∀ url base,
     (containsSub (lowerStr url) "register" = true ∨
      containsSub (lowerStr url) "login" = true ∨
      containsSub (lowerStr url) "logout" = true) →
     shouldCrawlUrl url base = false) ∧
  (∀ fetch idGen start mp md a, a ∈ crawlWebsite fetch idGen start mp md →
     a.url = start ∨
     (containsSub (lowerStr a.url) "register" = false ∧
      containsSub (lowerStr a.url) "login" = false ∧
      containsSub (lowerStr a.url) "logout" = false)) ∧
  ("register" ∈ highPriorityKeywords ∧ "signup" ∈ highPriorityKeywords) := by
  have hpart1 : ∀ url base,
      (containsSub (lowerStr url) "register" = true ∨
       containsSub (lowerStr url) "login" = true ∨
       containsSub (lowerStr url) "logout" = true) →
      shouldCrawlUrl url base = false := by
    intro url base h
    simp only [shouldCrawlUrl]
    split_ifs with h1 h2 h3 h4
    · rfl
    · rfl
    · rfl
    · rfl
    · exfalso
      apply h4
      rw [List.any_eq_true]
      rcases h with hr | hl | ho
      · exact ⟨"register", by decide, hr⟩
      · exact ⟨"login", by decide, hl⟩
      · exact ⟨"logout", by decide, ho⟩
  refine ⟨hpart1, ?_, by decide⟩
  intro fetch idGen start mp md a ha
  have hinit : admissibleInv start (parseUrl start).netloc (crawlInit start) := by
    unfold admissibleInv
    constructor
    · intro p hp
      simp only [crawlInit, List.mem_singleton] at hp
      rw [hp]
      exact Or.inl rfl
    · intro b hb
      simp [crawlInit] at hb
  have hinv := iterFinal_inv (crawlStep fetch idGen (parseUrl start).netloc mp md)
    (admissibleInv start (parseUrl start).netloc)
    (fun s s' hs h => crawlStep_admissible s s' hs h)
    (crawlFuel mp) (crawlInit start) hinit
  unfold crawlWebsite at ha
  rcases hinv.2 a ha with h1 | h2
  · exact Or.inl h1
  · right
    refine ⟨?_, ?_, ?_⟩
    · cases hcr : containsSub (lowerStr a.url) "register"
      · rfl
      · exfalso
        have h0 := hpart1 a.url (parseUrl start).netloc (Or.inl hcr)
        rw [h0] at h2
        exact Bool.false_ne_true h2
    · cases hcr : containsSub (lowerStr a.url) "login"
      · rfl
      · exfalso
        have h0 := hpart1 a.url (parseUrl start).netloc (Or.inr (Or.inl hcr))
        rw [h0] at h2
        exact Bool.false_ne_true h2
    · cases hcr : containsSub (lowerStr a.url) "logout"
      · rfl
      · exfalso
        have h0 := hpart1 a.url (parseUrl start).netloc (Or.inr (Or.inr hcr))
        rw [h0] at h2
        exact Bool.false_ne_true h2

/-- C10 (witness): the rejection clause at a concrete register URL and
the crawl clause at the single analysis of a concrete failed crawl. -/
theorem auth_keywords_never_crawled_witness :
  shouldCrawlUrl "https://a.com/register" "a.com" = false ∧
  ((errorAnalysis "http://a.com" "x").url = "http://a.com" ∨
   (containsSub (lowerStr (errorAnalysis "http://a.com" "x").url) "register" = false ∧
    containsSub (lowerStr (errorAnalysis "http://a.com" "x").url) "login" = false ∧
    containsSub (lowerStr (errorAnalysis "http://a.com" "x").url) "logout" = false)) :=
  ⟨auth_keywords_never_crawled.1 "https://a.com/register" "a.com" (Or.inl (by rfl)),
   auth_keywords_never_crawled.2.1 (fun _ => Except.error "x") (fun _ => "")
     "http://a.com" 1 2 _ (by decide)⟩

end CtaBot
